import Mathlib

/-!
# Verification of the Ames housing linear-regression pipeline

Shallow embedding of the three pipeline functions of the repository
(`transform_features`, `select_features`, `train_and_test`) over an
explicit dataframe model, together with theorems settling the frozen
claims about them.

Modelling conventions:
* A dataframe is a row-label list (the pandas index) plus a list of
  columns; a column is numeric (cells in `Option ℚ`) or textual
  (cells in `Option String`); `none` models a missing value (NaN).
  Exact rationals stand in for Python floats.
* Operations that raise in Python (KeyError on a missing label,
  sklearn shape/NaN validation errors, mean squared error of an empty
  test set, and so on) are modelled by `Option`: `none` is a surfaced
  error, `some` a normal return.
* The randomness consumed by a shuffle is passed explicitly as a
  permutation argument, so that properties over the source of
  randomness can be stated.
-/

/-- Keep the elements of `l` whose positions are marked `true` in `mask`
(row selection by boolean mask, as pandas does after a label drop). -/
def filterMask (mask : List Bool) (l : List α) : List α :=
  (l.zip mask).filterMap (fun p => if p.2 then some p.1 else none)

/-- All-or-nothing sequencing of a list of fallible values (the effect
of mapping a raising Python operation over a sequence). -/
def seqOpt : List (Option α) → Option (List α)
  | [] => some []
  | none :: _ => none
  | some a :: os =>
    match seqOpt os with
    | some rest => some (a :: rest)
    | none => none

/-- A dataframe column: a name together with typed cells.  `none` cells
are missing values.  Numeric columns model the pandas integer/float
dtypes, string columns the object dtype. -/
inductive Col where
  | num (name : String) (cells : List (Option ℚ))
  | str (name : String) (cells : List (Option String))
deriving DecidableEq

namespace Col

def name : Col → String
  | num n _ => n
  | str n _ => n

def isNum : Col → Bool
  | num _ _ => true
  | str _ _ => false

def size : Col → ℕ
  | num _ cs => cs.length
  | str _ cs => cs.length

/-- `df.isnull().sum()` for one column. -/
def missingCount : Col → ℕ
  | num _ cs => cs.countP Option.isNone
  | str _ cs => cs.countP Option.isNone

/-- `len(col.value_counts())`: the number of distinct non-missing
values (pandas `value_counts` excludes NaN by default). -/
def nuniq : Col → ℕ
  | num _ cs => (cs.filterMap id).dedup.length
  | str _ cs => (cs.filterMap id).dedup.length

/-- Keep the cells at the positions marked in `mask`. -/
def maskCells (mask : List Bool) : Col → Col
  | num n cs => num n (filterMask mask cs)
  | str n cs => str n (filterMask mask cs)

/-- Positional slice `df[:n]`, per column. -/
def takeCells (n : ℕ) : Col → Col
  | num nm cs => num nm (cs.take n)
  | str nm cs => str nm (cs.take n)

/-- Positional slice `df[n:]`, per column. -/
def dropCells (n : ℕ) : Col → Col
  | num nm cs => num nm (cs.drop n)
  | str nm cs => str nm (cs.drop n)

/-- Cells at the given positions (`df.iloc[positions]`), per column. -/
def selectCells (ps : List ℕ) : Col → Col
  | num nm cs => num nm (ps.filterMap (fun i => cs.get? i))
  | str nm cs => str nm (ps.filterMap (fun i => cs.get? i))

end Col

/-- The mode used by the imputation step: pandas `Series.mode()` lists
the most frequent non-missing values in ascending order and
`.to_dict(orient='records')[0]` keeps the first, i.e. the smallest most
frequent value.  (Junk value `0` on an empty list; the pipeline only
calls this on columns with at least one present value.) -/
def modeOf (l : List ℚ) : ℚ :=
  (l.dedup).foldl
    (fun best v =>
      if l.count v > l.count best ∨ (l.count v = l.count best ∧ v < best) then v else best)
    (l.headD 0)

/-- A dataframe: the row index (pandas labels) and the columns. -/
structure DF where
  labels : List ℤ
  cols : List Col
deriving DecidableEq

namespace DF

/-- `len(df)`: the number of rows. -/
def len (df : DF) : ℕ := df.labels.length

def colNames (df : DF) : List String := df.cols.map Col.name

/-- Well-formedness: every column has one cell per row and column names
are unique (as they are for any table loaded by `read_csv`). -/
def WF (df : DF) : Prop :=
  (∀ c ∈ df.cols, c.size = df.labels.length) ∧ (df.cols.map Col.name).Nodup

instance : DecidablePred WF := fun df => by unfold WF; infer_instance

/-- Total number of missing cells in the table. -/
def totalMissing (df : DF) : ℕ := (df.cols.map Col.missingCount).sum

/-- `df[name]` restricted to the numeric case: the cells of the unique
numeric column called `name`.  `none` models the KeyError on an absent
column, as well as the errors pandas raises when the name is duplicated
or the column is textual and used arithmetically. -/
def getNum (df : DF) (nm : String) : Option (List (Option ℚ)) :=
  match df.cols.filter (fun c => c.name == nm) with
  | [Col.num _ cs] => some cs
  | _ => none

/-- `df[:n]` (positional). -/
def take (n : ℕ) (df : DF) : DF :=
  ⟨df.labels.take n, df.cols.map (Col.takeCells n)⟩

/-- `df[n:]` (positional). -/
def drop (n : ℕ) (df : DF) : DF :=
  ⟨df.labels.drop n, df.cols.map (Col.dropCells n)⟩

/-- `df.iloc[ps]`. -/
def selectPos (ps : List ℕ) (df : DF) : DF :=
  ⟨ps.filterMap (fun i => df.labels.get? i), df.cols.map (Col.selectCells ps)⟩

end DF

/-! ## `transform_features`

```
def transform_features(df):
    num_missing = df.isnull().sum()
    drop_missing_cols = num_missing[(num_missing > len(df)/20)].sort_values()
    df = df.drop(drop_missing_cols.index, axis=1)

    text_mv_counts = df.select_dtypes(include=['object']).isnull().sum()...
    drop_missing_cols_2 = text_mv_counts[text_mv_counts > 0]
    df = df.drop(drop_missing_cols_2.index, axis=1)

    num_missing = df.select_dtypes(include=['integer', 'float']).isnull().sum()
    fixable_numeric_cols = num_missing[(num_missing < len(df)/20) & (num_missing > 0)]...
    replacement_values_dict = df[fixable_numeric_cols.index].mode().to_dict(orient='records')[0]
    df = df.fillna(replacement_values_dict)

    years_sold = df['Yr Sold'] - df['Year Built']
    years_since_remod = df['Yr Sold'] - df['Year Remod/Add']
    df['Years Before Sale'] = years_sold
    df['Years Since Remod'] = years_since_remod
    df = df.drop([1702, 2180, 2181], axis=0)
    df = df.drop(["PID", "Order", ...], axis=1)
    return df
```
-/

/-- Step 1: drop every column whose missing count is strictly greater
than `len(df)/20` (the comparison `num_missing > len(df)/20` over exact
numbers; `20 * missing > len` avoids the division). -/
def dropHighMissing (df : DF) : DF :=
  ⟨df.labels, df.cols.filter (fun c => !(20 * c.missingCount > df.len))⟩

/-- Step 2: drop every remaining text column that still has a missing
value. -/
def dropTextMissing (df : DF) : DF :=
  ⟨df.labels, df.cols.filter (fun c => !(!c.isNum ∧ c.missingCount > 0))⟩

/-- The predicate selecting `fixable_numeric_cols`: numeric, missing
count strictly below `len(df)/20` and strictly above `0`. -/
def fixable (n : ℕ) (c : Col) : Bool :=
  c.isNum ∧ c.missingCount > 0 ∧ 20 * c.missingCount < n

/-- Fill the missing cells of a numeric column with its mode. -/
def fillWithMode : Col → Col
  | Col.num nm cs =>
      Col.num nm (cs.map (fun v => some (v.getD (modeOf (cs.filterMap id)))))
  | c => c

/-- Step 3: mode-impute the fixable numeric columns.  When no column is
fixable, `df[...].mode().to_dict(orient='records')[0]` indexes into an
empty record list and raises IndexError, modelled by `none`. -/
def imputeStep (df : DF) : Option DF :=
  if (df.cols.filter (fixable df.len)).isEmpty then none
  else some ⟨df.labels, df.cols.map (fun c => if fixable df.len c then fillWithMode c else c)⟩

/-- Element-wise subtraction of two cell lists; a missing operand gives
a missing result (NaN propagation). -/
def subCells (a b : List (Option ℚ)) : List (Option ℚ) :=
  a.zipWith (fun x y =>
    match x, y with
    | some q, some r => some (q - r)
    | _, _ => none) b

/-- Step 4: derive `Years Before Sale` and `Years Since Remod` and
append them; errors if any of the three year columns is absent,
duplicated or textual. -/
def deriveYears (df : DF) : Option DF :=
  (df.getNum "Yr Sold").bind fun yrSold =>
    (df.getNum "Year Built").bind fun yearBuilt =>
      (df.getNum "Year Remod/Add").bind fun yearRemod =>
        some ⟨df.labels,
          df.cols ++ [Col.num "Years Before Sale" (subCells yrSold yearBuilt),
                      Col.num "Years Since Remod" (subCells yrSold yearRemod)]⟩

/-- The hard-coded row labels removed by `df.drop([1702, 2180, 2181], axis=0)`. -/
def badLabels : List ℤ := [1702, 2180, 2181]

/-- Step 5: drop the rows labelled 1702, 2180 and 2181; KeyError
(`none`) if any of the labels is absent from the index. -/
def dropFixedRows (df : DF) : Option DF :=
  if badLabels.all (fun l => df.labels.contains l) then
    let mask := df.labels.map (fun l => !(badLabels.contains l))
    some ⟨df.labels.filter (fun l => !(badLabels.contains l)), df.cols.map (Col.maskCells mask)⟩
  else none

/-- The columns removed at the end of `transform_features`. -/
def finalDropCols : List String :=
  ["PID", "Order", "Mo Sold", "Sale Condition", "Sale Type", "Year Built", "Year Remod/Add"]

/-- Step 6: drop the identifier / leakage / raw-year columns; KeyError
(`none`) if any of them is absent. -/
def dropFinalCols (df : DF) : Option DF :=
  if finalDropCols.all (fun nm => df.colNames.contains nm) then
    some ⟨df.labels, df.cols.filter (fun c => !(finalDropCols.contains c.name))⟩
  else none

/-- `transform_features` (notebook cell, lines shared by both source
files). -/
def transform_features (df : DF) : Option DF :=
  (imputeStep (dropTextMissing (dropHighMissing df))).bind fun df3 =>
    (deriveYears df3).bind fun df4 =>
      (dropFixedRows df4).bind fun df5 =>
        dropFinalCols df5

/-! ## `select_features`

```
def select_features(df, coeff_threshold=0.4, uniq_threshold=10):
    numerical_df = df.select_dtypes(include=['integer', 'float'])
    abs_corr_coeffs = numerical_df.corr()["SalePrice"].abs().sort_values()
    df = df.drop(abs_corr_coeffs[abs_corr_coeffs < coeff_threshold].index, axis=1)
    ... uniqueness_counts ... > 10 ... drop ...
    ... get_dummies ...
```
-/

/-- The rows on which both series have a present value: pandas `corr`
computes Pearson over pairwise-complete observations. -/
def pairedCells (a b : List (Option ℚ)) : List (ℚ × ℚ) :=
  (a.zip b).filterMap (fun p =>
    match p.1, p.2 with
    | some q, some r => some (q, r)
    | _, _ => none)

/-- `n·Σx² − (Σx)²`, the (n²-scaled) variance numerator of the first
components of `ps`. -/
def varNum (ps : List ℚ) : ℚ :=
  (ps.length : ℚ) * (ps.map (fun x => x ^ 2)).sum - (ps.sum) ^ 2

/-- `n·Σxy − ΣxΣy`, the (n²-scaled) covariance numerator. -/
def covNum (ps : List (ℚ × ℚ)) : ℚ :=
  (ps.length : ℚ) * (ps.map (fun p => p.1 * p.2)).sum - (ps.map Prod.fst).sum * (ps.map Prod.snd).sum

/-- Whether the Pearson correlation of the two series is defined (both
pairwise-complete variances positive); when it is not, pandas yields
NaN, and `NaN < t` is false, so the column is never dropped. -/
def corrDefined (a b : List (Option ℚ)) : Bool :=
  0 < varNum ((pairedCells a b).map Prod.fst) ∧ 0 < varNum ((pairedCells a b).map Prod.snd)

/-- `|corr(a, b)| < t`, decided exactly on rationals: for `t > 0` this
is `cov² < t² · varX · varY`; for `t ≤ 0` it is false, and it is false
whenever the correlation is undefined (NaN comparison). -/
def absCorrLT (a b : List (Option ℚ)) (t : ℚ) : Bool :=
  corrDefined a b ∧ 0 < t ∧
    (covNum (pairedCells a b)) ^ 2
      < t ^ 2 * varNum ((pairedCells a b).map Prod.fst) * varNum ((pairedCells a b).map Prod.snd)

/-- The correlation filter: drop every numeric column whose absolute
Pearson correlation with `SalePrice` is strictly below the threshold
(undefined correlations compare false, hence are kept); KeyError
(`none`) when `SalePrice` is not a numeric column. -/
def corrStep (df : DF) (coeff_threshold : ℚ) : Option DF :=
  match (df.cols.filter Col.isNum).filter (fun c => c.name == "SalePrice") with
  | [Col.num _ sp] =>
      let dropNames := (df.cols.filter Col.isNum).filterMap (fun c =>
        match c with
        | Col.num nm cs => if absCorrLT cs sp coeff_threshold then some nm else none
        | Col.str _ _ => none)
      some ⟨df.labels, df.cols.filter (fun c => !(dropNames.contains c.name))⟩
  | _ => none

/-- The fixed allow-list `nominal_features` of the source. -/
def nominal_features : List String :=
  ["PID", "MS SubClass", "MS Zoning", "Street", "Alley", "Land Contour", "Lot Config",
   "Neighborhood", "Condition 1", "Condition 2", "Bldg Type", "House Style", "Roof Style",
   "Roof Matl", "Exterior 1st", "Exterior 2nd", "Mas Vnr Type", "Foundation", "Heating",
   "Central Air", "Garage Type", "Misc Feature", "Sale Type", "Sale Condition"]

/-- `drop_nonuniq_cols`: among the allow-listed columns present in the
table (`transform_cat_cols`), the names whose column has more than 10
distinct values.  The code compares `uniqueness_counts > 10` against
the literal `10`, not against the `uniq_threshold` parameter. -/
def nominalDropNames (df : DF) : List String :=
  (nominal_features.filter (fun nm => df.colNames.contains nm)).filter (fun nm =>
    match df.cols.find? (fun c => c.name == nm) with
    | some c => 10 < c.nuniq
    | none => false)

/-- The cardinality filter: drop the high-cardinality allow-listed
columns. -/
def cardStep (df : DF) : DF :=
  ⟨df.labels, df.cols.filter (fun c => !((nominalDropNames df).contains c.name))⟩

/-- The indicator columns `pd.get_dummies` builds for one text column:
one 0/1 column per distinct observed value, named `name_value`; a
missing original cell yields 0 in every indicator.  (pandas orders the
dummy columns by sorted category; we keep the order `List.dedup`
yields, which affects only the relative order of the new columns, never
their membership, names, counts or cells, and no theorem below depends
on column order.) -/
def dummyCols : Col → List Col
  | Col.str nm cs =>
      (cs.filterMap id).dedup.map (fun v =>
        Col.num (nm ++ "_" ++ v) (cs.map (fun cell => some (if cell == some v then (1 : ℚ) else 0))))
  | Col.num _ _ => []

/-- The encoding step: `pd.concat([df, pd.get_dummies(...)], axis=1)
.drop(text_cols, axis=1)` — append every dummy column, then drop every
column bearing the name of one of the original text columns (the drop
is by label, so it also removes any appended column that happens to
share such a name). -/
def encodeStep (df : DF) : DF :=
  let textCols := df.cols.filter (fun c => !c.isNum)
  let textNames := textCols.map Col.name
  ⟨df.labels, (df.cols ++ (textCols.map dummyCols).flatten).filter
      (fun c => !(textNames.contains c.name))⟩

/-- `select_features`.  The `uniq_threshold` parameter is accepted (the
Python default is 10) but never read: the cardinality filter uses the
literal 10. -/
def select_features (df : DF) (coeff_threshold : ℚ) (uniq_threshold : ℕ) : Option DF :=
  let _ := uniq_threshold
  (corrStep df coeff_threshold).map (fun d => encodeStep (cardStep d))

/-! ## `train_and_test`

Ordinary least squares as `sklearn.linear_model.LinearRegression` fits
it: centre the features and the target, take the minimum-norm least
squares coefficients of the centred system (scipy `lstsq`), and recover
the intercept from the means.  Shape or NaN validation failures raise
in sklearn and are `none` here.
-/

def dot (a b : List ℚ) : ℚ := (a.zipWith (· * ·) b).sum

def vecSub (a b : List ℚ) : List ℚ := a.zipWith (· - ·) b

def matVec (M : List (List ℚ)) (v : List ℚ) : List ℚ := M.map (fun r => dot r v)

/-- The `d` columns of a row-major matrix. -/
def colsOf (X : List (List ℚ)) (d : ℕ) : List (List ℚ) :=
  (List.range d).map (fun j => X.map (fun r => r.getD j 0))

/-- One augmented-row elimination step: subtract the multiple of pivot
row `p` that zeroes the leading entry of `r`, then discard that entry. -/
def elimWith (p r : List ℚ) : List ℚ :=
  (r.zipWith (fun a b => a - (r.headD 0 / p.headD 0) * b) p).tail

/-- Gaussian elimination on augmented rows (`v` variables, each row
`v + 1` entries): returns some solution of the system when it is
consistent, assigning 0 to free variables.  (It is only applied to the
normal equations below, which are always consistent; on an inconsistent
system it would return a vector that satisfies the pivoted equations
only, which no caller relies on.) -/
def gaussSolve : ℕ → List (List ℚ) → List ℚ
  | 0, _ => []
  | v + 1, rows =>
    match rows.find? (fun r => !(r.headD 0 == 0)) with
    | none => 0 :: gaussSolve v (rows.map List.tail)
    | some p =>
      let xs := gaussSolve v ((rows.erase p).map (elimWith p))
      ((p.tail.getD v 0) - dot (p.tail.take v) xs) / p.headD 0 :: xs

/-- `LinearRegression().fit(X, y)`: `none` on 0 samples, 0 features, a
ragged matrix or mismatched lengths (sklearn validation errors);
otherwise the centred minimum-norm least squares fit.  With `G = XcᵀXc`
and `c = Xcᵀyc`, the minimum-norm solution of the normal equations is
`G·λ` for any `λ` with `G²λ = c` (that system is always consistent
because `c` lies in the column space of `G`). -/
def fit (X : List (List ℚ)) (y : List ℚ) : Option (List ℚ × ℚ) :=
  match X with
  | [] => none
  | r0 :: _ =>
    let n := X.length
    let d := r0.length
    if d = 0 ∨ ¬(X.all (fun r => r.length = d)) ∨ y.length ≠ n then none
    else
      let xbar := (colsOf X d).map (fun cj => cj.sum / (n : ℚ))
      let ybar := y.sum / (n : ℚ)
      let Xc := X.map (fun r => vecSub r xbar)
      let yc := y.map (fun v => v - ybar)
      let G := (colsOf Xc d).map (fun ci => (colsOf Xc d).map (dot ci))
      let rhs := (colsOf Xc d).map (fun ci => dot ci yc)
      let M := G.map (fun gi => G.map (dot gi))
      let lam := gaussSolve d (M.zipWith (fun row r => row ++ [r]) rhs)
      let beta := matVec G lam
      some (beta, ybar - dot xbar beta)

/-- `lr.predict(X)`. -/
def predict (m : List ℚ × ℚ) (X : List (List ℚ)) : List ℚ :=
  X.map (fun r => m.2 + dot r m.1)

/-- `mean_squared_error(ys, preds)`: errors on an empty or mismatched
input. -/
def mseOf (ys preds : List ℚ) : Option ℚ :=
  if ys.length = preds.length ∧ 0 < ys.length then
    some ((ys.zipWith (fun a b => (a - b) ^ 2) preds).sum / (ys.length : ℚ))
  else none

/-- Feature-matrix rows of a dataframe slice: `none` if a feature
column is absent, duplicated or textual, if a column runs out of cells,
or if any cell is missing (sklearn rejects NaN). -/
def zipRows : List (List (Option ℚ)) → ℕ → Option (List (List ℚ))
  | _, 0 => some []
  | cls, n + 1 =>
    match seqOpt (cls.map (fun c => c.head?.join)), zipRows (cls.map List.tail) n with
    | some hd, some tl => some (hd :: tl)
    | _, _ => none

def extractX (df : DF) (feats : List String) : Option (List (List ℚ)) :=
  (seqOpt (feats.map (fun f => df.getNum f))).bind fun cls => zipRows cls df.len

def extractY (df : DF) : Option (List ℚ) :=
  (df.getNum "SalePrice").bind seqOpt

/-- Fit on `train`, score root-mean-squared error (here: the mean
squared error, its square root being taken at the very end) on `test`. -/
def splitMse (train test : DF) (feats : List String) : Option ℚ :=
  (extractX train feats).bind fun Xtr =>
    (extractY train).bind fun ytr =>
      (fit Xtr ytr).bind fun m =>
        (extractX test feats).bind fun Xte =>
          (extractY test).bind fun yte =>
            mseOf yte (predict m Xte)

/-- `numeric_df.columns.drop("SalePrice")`: KeyError (`none`) when no
numeric `SalePrice` column exists. -/
def featuresOf (df : DF) : Option (List String) :=
  let numNames := (df.cols.filter Col.isNum).map Col.name
  if numNames.contains "SalePrice" then
    some (numNames.filter (fun nm => !(nm == "SalePrice")))
  else none

/-- Holdout (k = 0): first 1460 rows train, remainder test. -/
def holdoutMse (df : DF) : Option ℚ :=
  (featuresOf df).bind fun feats =>
    splitMse (DF.take 1460 df) (DF.drop 1460 df) feats

/-- Mode k = 1: both directions of the fixed positional split, in the
table's original order. -/
def crossMses (df : DF) : Option (ℚ × ℚ) :=
  (featuresOf df).bind fun feats =>
    (splitMse (DF.take 1460 df) (DF.drop 1460 df) feats).bind fun a =>
      (splitMse (DF.drop 1460 df) (DF.take 1460 df) feats).bind fun b =>
        some (a, b)

/-- `df.sample(frac=1)`: the rows in the order given by the realized
permutation. -/
def shuffleDF (df : DF) (perm : List ℕ) : DF := DF.selectPos perm df

/-- sklearn `KFold` fold sizes: the first `n % k` folds get one extra
row. -/
def foldSizes (n k : ℕ) : List ℕ :=
  (List.range k).map (fun i => n / k + if i < n % k then 1 else 0)

def chunks : List ℕ → List ℕ → List (List ℕ)
  | [], _ => []
  | s :: ss, l => l.take s :: chunks ss (l.drop s)

/-- `KFold(n_splits=k, shuffle=True)` driven by the realized
permutation of the row positions: fold `i`'s test set is the `i`-th
block of the permutation; sklearn yields both index arrays in
ascending positional order.  `none` when `k` exceeds the number of
rows (sklearn raises). -/
def kfoldMses (df : DF) (k : ℕ) (perm : List ℕ) : Option (List ℚ) :=
  (featuresOf df).bind fun feats =>
    if k ≤ df.len then
      seqOpt ((chunks (foldSizes df.len k) perm).map (fun blk =>
        splitMse
          (DF.selectPos ((List.range df.len).filter (fun i => !(blk.contains i))) df)
          (DF.selectPos ((List.range df.len).filter (fun i => blk.contains i)) df)
          feats))
    else none

/-- `train_and_test(df, k)`, with the randomness of each shuffle passed
in as the realized permutation `perm`.  Mode 0: holdout.  Mode 1: the
shuffled copy is computed but, as in the source, never used.  Other
modes: k-fold cross-validation, returning the mean of the per-fold
RMSEs. -/
noncomputable def train_and_test (df : DF) (k : ℕ) (perm : List ℕ) : Option ℝ :=
  match k with
  | 0 => (holdoutMse df).map (fun (m : ℚ) => Real.sqrt (m : ℝ))
  | 1 =>
    let _shuffled := shuffleDF df perm
    (crossMses df).map (fun m => (Real.sqrt (m.1 : ℝ) + Real.sqrt (m.2 : ℝ)) / 2)
  | _ => (kfoldMses df k perm).map (fun l =>
      (l.map (fun (m : ℚ) => Real.sqrt (m : ℝ))).sum / (l.length : ℝ))

/-! ## Concrete tables used to settle the claims -/

/-- The complete numeric columns every call of `transform_features`
needs (the final column drop raises KeyError unless all seven names are
present, and the two derived features need the three year columns). -/
def requiredCols (n : ℕ) : List Col :=
  [Col.num "PID" (List.replicate n (some 1)),
   Col.num "Order" (List.replicate n (some 1)),
   Col.num "Mo Sold" (List.replicate n (some 1)),
   Col.num "Sale Condition" (List.replicate n (some 1)),
   Col.num "Sale Type" (List.replicate n (some 1)),
   Col.num "Year Built" (List.replicate n (some 1990)),
   Col.num "Year Remod/Add" (List.replicate n (some 1995)),
   Col.num "Yr Sold" (List.replicate n (some 2000))]

/-- Index containing the three hard-coded drop labels plus `m` fresh
labels. -/
def labelsWithBad (m : ℕ) : List ℤ :=
  [1702, 2180, 2181] ++ (List.range m).map Int.ofNat

/-- 40-row table whose numeric column `B` has exactly `40 / 20 = 2`
missing values — on the 5% boundary — and whose column `F` has one
missing value (so the imputation step has work and does not raise). -/
def tblBoundary : DF :=
  ⟨labelsWithBad 37,
   requiredCols 40 ++
     [Col.num "F" (none :: List.replicate 39 (some 3)),
      Col.num "B" (List.replicate 5 (some 1) ++ [none, none] ++ List.replicate 33 (some 1))]⟩

/-- 23-row table with no column on the 5% missing boundary (23 is not a
multiple of 20, so no boundary column can exist); `F` has one missing
value so the imputation step has work. -/
def tbl23 : DF :=
  ⟨labelsWithBad 20, requiredCols 23 ++ [Col.num "F" (none :: List.replicate 22 (some 3))]⟩

/-- Like `tbl23`, but the row labelled 0 (position 3) was built in 2010
and sold in 2000: its derived `Years Before Sale` is negative, and its
label is not one of the three hard-coded drop labels. -/
def tblNegAge : DF :=
  ⟨labelsWithBad 20,
   [Col.num "PID" (List.replicate 23 (some 1)),
    Col.num "Order" (List.replicate 23 (some 1)),
    Col.num "Mo Sold" (List.replicate 23 (some 1)),
    Col.num "Sale Condition" (List.replicate 23 (some 1)),
    Col.num "Sale Type" (List.replicate 23 (some 1)),
    Col.num "Year Built" (List.replicate 3 (some 1990) ++ [some 2010] ++ List.replicate 19 (some 1990)),
    Col.num "Year Remod/Add" (List.replicate 23 (some 1995)),
    Col.num "Yr Sold" (List.replicate 23 (some 2000)),
    Col.num "F" (none :: List.replicate 22 (some 3))]⟩

/-- 20-row table whose column `B` has exactly one missing value: a
missing fraction of exactly 5%. -/
def tblFivePercent : DF :=
  ⟨(List.range 20).map Int.ofNat,
   [Col.num "B" (none :: List.replicate 19 (some 1)),
    Col.num "A" (List.replicate 20 (some 2))]⟩

/-- Four data points used for the k-fold counterexample: the split
`{0,1} | {2,3}` gives fold mean squared errors `[4, 4]`, the split
`{0,3} | {1,2}` gives `[5, 5]`. -/
def tblFold : DF :=
  ⟨[0, 1, 2, 3],
   [Col.num "F" [some 0, some 3, some 1, some 2],
    Col.num "SalePrice" [some 0, some 3, some 3, some 4]]⟩

/-- Numeric allow-listed column `Street` with 4 distinct values,
perfectly correlated with `SalePrice`. -/
def tblStreet : DF :=
  ⟨[0, 1, 2, 3],
   [Col.num "Street" [some 1, some 2, some 3, some 4],
    Col.num "SalePrice" [some 1, some 2, some 3, some 4]]⟩

/-- A constant numeric column `K` (undefined Pearson correlation with
the target) next to a non-constant `SalePrice`. -/
def tblConst : DF :=
  ⟨[0, 1, 2],
   [Col.num "K" [some 1, some 1, some 1],
    Col.num "SalePrice" [some 1, some 2, some 3]]⟩

/-- Text column `A` (2 distinct values, no missing cell) next to a text
column literally named `A_b`: the dummy column `A_b` produced for `A`
collides with that name and is dropped with the original text columns. -/
def tblCollide : DF :=
  ⟨[0, 1, 2],
   [Col.str "A" [some "b", some "x", some "b"],
    Col.str "A_b" [some "z", some "z", some "z"]]⟩

/-- Collision-free encoding witness: numeric `N` plus text `T` with two
distinct values and no missing cell. -/
def tblEncode : DF :=
  ⟨[0, 1, 2],
   [Col.num "N" [some 1, some 2, some 3],
    Col.str "T" [some "a", some "b", some "a"]]⟩

/-- 1461 rows (so the holdout test partition is the single last row),
one feature, and a `SalePrice` that is the same for every row: fewer
than two distinct target values in the training partition. -/
def tblConstTarget : DF :=
  ⟨List.replicate 1461 0,
   [Col.num "F" (List.replicate 1461 (some 7)),
    Col.num "SalePrice" (List.replicate 1461 (some 5))]⟩

/-- 1461 rows whose only numeric column is the target itself: the
retained feature set is empty. -/
def tblNoFeatures : DF :=
  ⟨List.replicate 1461 0, [Col.num "SalePrice" (List.replicate 1461 (some 5))]⟩

/-- A two-row table (at most 1460 rows, so the holdout test partition
is empty). -/
def tblSmall : DF :=
  ⟨[0, 1],
   [Col.num "F" [some 1, some 2], Col.num "SalePrice" [some 3, some 4]]⟩

/-! ## Helper lemmas -/

set_option maxRecDepth 40000

/-- Whether the named derived column exists, is numeric, and contains a
negative value somewhere. -/
def hasNegCell (df : DF) (nm : String) : Bool :=
  match df.getNum nm with
  | some cs => cs.any (fun v => match v with | some q => decide (q < 0) | none => false)
  | none => false

/-- The numeric cells of a column (empty for a text column). -/
def Col.numCells : Col → List (Option ℚ)
  | Col.num _ cs => cs
  | Col.str _ _ => []

/-- The `SalePrice` series the correlation filter works against: the
cells of the unique numeric column of that name (junk `[]` when
`corrStep` would raise instead). -/
def spCells (df : DF) : List (Option ℚ) :=
  match (df.cols.filter Col.isNum).filter (fun c => c.name == "SalePrice") with
  | [Col.num _ sp] => sp
  | _ => []

/-- The correlation-filter rule as the spec phrases it: a column meets
the threshold when its Pearson correlation with the target is defined
and `|corr| ≥ t`; an undefined (NaN) correlation meets no threshold. -/
def absCorrGE (a b : List (Option ℚ)) (t : ℚ) : Bool :=
  corrDefined a b ∧ !(absCorrLT a b t)

/-- The names `pd.get_dummies` gives the indicator columns of one text
column: the column name, an underscore, and the category value. -/
def dummyNames (nm : String) (cs : List (Option String)) : List String :=
  (cs.filterMap id).dedup.map (fun v => nm ++ "_" ++ v)

/-- All column names in play at the encoding step: the original
columns followed by every dummy column.  The encoding step is
collision-free exactly when this list has no duplicates. -/
def postEncodeNames (df : DF) : List String :=
  df.colNames ++ ((df.cols.filter (fun c => !c.isNum)).map dummyCols).flatten.map Col.name

/-- Modelled from the spec (mode 1, the two-way cross check): fit on
the first 1460 rows in the table's original order and score the
remainder, then swap the two partitions, and report the arithmetic
mean of the two root-mean-squared errors. -/
noncomputable def twoWayCrossCheckSpec (df : DF) : Option ℝ :=
  (featuresOf df).bind fun feats =>
    (splitMse (DF.take 1460 df) (DF.drop 1460 df) feats).bind fun a =>
      (splitMse (DF.drop 1460 df) (DF.take 1460 df) feats).bind fun b =>
        some ((Real.sqrt (a : ℝ) + Real.sqrt (b : ℝ)) / 2)

theorem dropHighMissing_labels (df : DF) : (dropHighMissing df).labels = df.labels := rfl

theorem dropTextMissing_labels (df : DF) : (dropTextMissing df).labels = df.labels := rfl

theorem imputeStep_labels {df out : DF} (h : imputeStep df = some out) :
    out.labels = df.labels := by
  unfold imputeStep at h
  split at h
  · exact absurd h (by simp)
  · obtain rfl := Option.some.inj h; rfl

theorem deriveYears_labels {df out : DF} (h : deriveYears df = some out) :
    out.labels = df.labels := by
  simp only [deriveYears, Option.bind_eq_some] at h
  obtain ⟨a, _, b, _, c, _, h⟩ := h
  obtain rfl := Option.some.inj h; rfl

theorem dropFixedRows_labels {df out : DF} (h : dropFixedRows df = some out) :
    out.labels = df.labels.filter (fun l => !(badLabels.contains l)) := by
  unfold dropFixedRows at h
  split at h
  · obtain rfl := Option.some.inj h; rfl
  · exact absurd h (by simp)

theorem dropFinalCols_labels {df out : DF} (h : dropFinalCols df = some out) :
    out.labels = df.labels := by
  unfold dropFinalCols at h
  split at h
  · obtain rfl := Option.some.inj h; rfl
  · exact absurd h (by simp)

theorem transform_features_decomp {df out : DF} (h : transform_features df = some out) :
    ∃ d3 d4 d5,
      imputeStep (dropTextMissing (dropHighMissing df)) = some d3 ∧
      deriveYears d3 = some d4 ∧ dropFixedRows d4 = some d5 ∧ dropFinalCols d5 = some out := by
  simp only [transform_features, Option.bind_eq_some] at h
  obtain ⟨d3, h3, d4, h4, d5, h5, h6⟩ := h
  exact ⟨d3, d4, d5, h3, h4, h5, h6⟩


/-! ## Claim C2: the missing-value column drop and the 5% boundary -/

/-- C2, counterexample: the claim says `transform_features` drops every
column whose missing fraction is at least 5%, but the drop predicate is
the strict `num_missing > len(df)/20`: in a 20-row table, a column with
exactly one missing value (exactly 5%) is retained by the drop step. -/
theorem claim_C2_counterexample :
    Col.num "B" (none :: List.replicate 19 (some 1)) ∈ (dropHighMissing tblFivePercent).cols ∧
    20 * (Col.num "B" (none :: List.replicate 19 (some 1))).missingCount = tblFivePercent.len := by
  constructor
  · decide
  · decide

/-- C2, amended: the missing-value drop step of `transform_features`
retains a column exactly when its missing count is at most `len(df)/20`
(equivalently `20 · missing ≤ len`); only columns strictly above the 5%
threshold are dropped, and a column exactly on the boundary is kept. -/
theorem claim_C2_amended (df : DF) (c : Col) :
    c ∈ (dropHighMissing df).cols ↔ c ∈ df.cols ∧ 20 * c.missingCount ≤ df.len := by
  simp [dropHighMissing, List.mem_filter, Nat.not_lt]

/-! ## Claim C3: row exclusion is by hard-coded label, not by predicate -/

/-- C3, counterexample: a returned table can contain a row whose
derived `Years Before Sale` is negative, because the code removes the
fixed positional labels 1702, 2180, 2181 instead of selecting rows by
the negative-age predicate: in `tblNegAge` the row labelled 0 was
remodelled/built after its sale year and is retained. -/
theorem claim_C3_counterexample :
    (transform_features tblNegAge).map (fun o => hasNegCell o "Years Before Sale") = some true := by
  with_unfolding_all rfl

/-- C3, amended: whenever `transform_features` returns, the rows of the
result are exactly the input rows whose label is not one of the three
hard-coded labels 1702, 2180 and 2181; no row is excluded because of a
negative derived age, so nonnegativity of the derived features holds
only for inputs (such as the canonical dataset) in which the
negative-age rows happen to carry precisely those labels. -/
theorem claim_C3_amended (df out : DF) (h : transform_features df = some out) :
    out.labels = df.labels.filter (fun l => !(badLabels.contains l)) := by
  obtain ⟨d3, d4, d5, h3, h4, h5, h6⟩ := transform_features_decomp h
  rw [dropFinalCols_labels h6, dropFixedRows_labels h5, deriveYears_labels h4,
    imputeStep_labels h3, dropTextMissing_labels, dropHighMissing_labels]

/-- C3, witness: the amended statement evaluated on the concrete 23-row
table `tbl23`, on which `transform_features` returns and keeps exactly
the rows whose labels are not hard-coded. -/
theorem claim_C3_witness :
    (transform_features tbl23).map DF.labels =
      some (tbl23.labels.filter (fun l => !(badLabels.contains l))) := by
  have hs : (transform_features tbl23).isSome := by decide
  obtain ⟨out, hout⟩ := Option.isSome_iff_exists.mp hs
  rw [hout, Option.map_some']
  exact congrArg some (claim_C3_amended tbl23 out hout)

/-! ## Claim C1: missing values after `transform_features` -/

theorem countP_isNone_eq_zero {α : Type} {l : List (Option α)} :
    l.countP (fun v => v.isNone) = 0 ↔ ∀ v ∈ l, v.isSome = true := by
  rw [List.countP_eq_zero]
  constructor
  · intro h v hv
    cases v with
    | none => exact absurd (by simp : Option.isNone (none : Option α) = true) (h none hv)
    | some a => rfl
  · intro h v hv
    cases v with
    | none => exact absurd (h none hv) (by simp)
    | some a => simp

theorem fillWithMode_missing (nm : String) (cs : List (Option ℚ)) :
    (fillWithMode (Col.num nm cs)).missingCount = 0 := by
  simp [fillWithMode, Col.missingCount, List.countP_eq_zero]

theorem mem_filterMask {α : Type} {mask : List Bool} {l : List α} {v : α}
    (h : v ∈ filterMask mask l) : v ∈ l := by
  unfold filterMask at h
  obtain ⟨p, hp, hpv⟩ := List.mem_filterMap.mp h
  have h1 : p.2 = true := by by_contra hc; simp [hc] at hpv
  rw [h1] at hpv; simp at hpv
  exact hpv ▸ (List.of_mem_zip hp).1

theorem subCells_isSome {a b : List (Option ℚ)}
    (ha : ∀ v ∈ a, v.isSome = true) (hb : ∀ v ∈ b, v.isSome = true) :
    ∀ v ∈ subCells a b, v.isSome = true := by
  induction a generalizing b with
  | nil => simp [subCells]
  | cons x xs ih =>
    cases b with
    | nil => simp [subCells]
    | cons y ys =>
      intro v hv
      simp only [subCells, List.zipWith_cons_cons, List.mem_cons] at hv
      rcases hv with rfl | hv
      · have hx := ha x (by simp)
        have hy := hb y (by simp)
        cases x <;> cases y <;> simp_all
      · exact ih (fun w hw => ha w (by simp [hw])) (fun w hw => hb w (by simp [hw])) v hv

theorem getNum_mem {df : DF} {nm : String} {cs : List (Option ℚ)}
    (h : df.getNum nm = some cs) : Col.num nm cs ∈ df.cols := by
  unfold DF.getNum at h
  split at h
  case _ nm2 cs2 heq =>
    obtain rfl := Option.some.inj h
    have hmem : Col.num nm2 cs2 ∈ df.cols.filter (fun c => c.name == nm) := by
      rw [heq]; exact List.mem_cons_self _ _
    obtain ⟨hin, hpred⟩ := List.mem_filter.mp hmem
    have : nm2 = nm := by simpa [Col.name] using hpred
    exact this ▸ hin
  case _ => exact absurd h (by simp)

theorem imputeStep_cols {df out : DF} (h : imputeStep df = some out) :
    out.cols = df.cols.map (fun c => if fixable df.len c then fillWithMode c else c) := by
  unfold imputeStep at h
  split at h
  · exact absurd h (by simp)
  · obtain rfl := Option.some.inj h; rfl

theorem deriveYears_cols {df out : DF} (h : deriveYears df = some out) :
    ∃ ys yb yr, df.getNum "Yr Sold" = some ys ∧ df.getNum "Year Built" = some yb ∧
      df.getNum "Year Remod/Add" = some yr ∧
      out.cols = df.cols ++ [Col.num "Years Before Sale" (subCells ys yb),
        Col.num "Years Since Remod" (subCells ys yr)] := by
  simp only [deriveYears, Option.bind_eq_some] at h
  obtain ⟨ys, hys, yb, hyb, yr, hyr, h⟩ := h
  obtain rfl := Option.some.inj h
  exact ⟨ys, yb, yr, hys, hyb, hyr, rfl⟩

theorem dropFixedRows_cols {df out : DF} (h : dropFixedRows df = some out) :
    ∃ mask, out.cols = df.cols.map (Col.maskCells mask) := by
  unfold dropFixedRows at h
  split at h
  · obtain rfl := Option.some.inj h
    exact ⟨df.labels.map (fun l => !(badLabels.contains l)), rfl⟩
  · exact absurd h (by simp)

theorem dropFinalCols_cols {df out : DF} (h : dropFinalCols df = some out) :
    out.cols = df.cols.filter (fun c => !(finalDropCols.contains c.name)) := by
  unfold dropFinalCols at h
  split at h
  · obtain rfl := Option.some.inj h; rfl
  · exact absurd h (by simp)

theorem maskCells_missing {mask : List Bool} {c : Col} (h : c.missingCount = 0) :
    (c.maskCells mask).missingCount = 0 := by
  cases c with
  | num nm cs =>
    simp only [Col.missingCount] at h
    simp only [Col.maskCells, Col.missingCount, countP_isNone_eq_zero] at h ⊢
    exact fun v hv => h v (mem_filterMask hv)
  | str nm cs =>
    simp only [Col.missingCount] at h
    simp only [Col.maskCells, Col.missingCount, countP_isNone_eq_zero] at h ⊢
    exact fun v hv => h v (mem_filterMask hv)

/-- C1, counterexample: the claim says every table returned by
`transform_features` has zero missing values, but a numeric column
whose missing count is exactly `len(df)/20` is neither dropped (the
drop is strict `>`) nor imputed (the fixable filter is strict `<`): on
the 40-row `tblBoundary`, whose column `B` has exactly 2 of 40 cells
missing, the function returns a table that still has 2 missing cells. -/
theorem claim_C1_counterexample :
    (transform_features tblBoundary).map DF.totalMissing = some 2 := by
  decide

/-- C1, amended: whenever `transform_features` returns on a well-formed
table none of whose numeric columns has a missing count exactly equal
to `len(df)/20`, the returned table has zero missing values.  (The
counterexample forces the boundary exclusion: a column sitting exactly
on the 5% boundary survives both the drop and the imputation with its
missing cells intact.) -/
theorem claim_C1_amended (df out : DF) (_hwf : df.WF)
    (hnb : ∀ c ∈ df.cols, c.isNum = true → 20 * c.missingCount ≠ df.len)
    (h : transform_features df = some out) :
    out.totalMissing = 0 := by
  obtain ⟨d3, d4, d5, h3, h4, h5, h6⟩ := transform_features_decomp h
  have hd3 : ∀ c ∈ d3.cols, c.missingCount = 0 := by
    intro c hc
    rw [imputeStep_cols h3] at hc
    obtain ⟨c2, hc2, rfl⟩ := List.mem_map.mp hc
    obtain ⟨hc1, hpred2⟩ := List.mem_filter.mp hc2
    obtain ⟨hc0, hpred1⟩ := List.mem_filter.mp hc1
    by_cases hfix : fixable (dropTextMissing (dropHighMissing df)).len c2 = true
    · rw [if_pos hfix]
      cases c2 with
      | num nm cs => exact fillWithMode_missing nm cs
      | str nm cs => simp [fixable, Col.isNum] at hfix
    · rw [if_neg hfix]
      cases c2 with
      | str nm cs =>
        simp only [Col.missingCount]
        by_contra hne
        have hpos : (Col.str nm cs).missingCount > 0 := by
          simp only [Col.missingCount]; omega
        simp [Col.isNum, hpos] at hpred2
      | num nm cs =>
        have hne := hnb _ hc0 rfl
        have hlen : (dropTextMissing (dropHighMissing df)).len = df.len := rfl
        rw [hlen] at hfix
        simp only [Col.missingCount] at hne ⊢
        simp [fixable, Col.isNum, Col.missingCount] at hfix
        simp [Col.missingCount] at hpred1
        by_contra hnz
        have hmem : none ∈ cs := by
          obtain ⟨v, hv, hvp⟩ := List.countP_pos_iff.mp (Nat.pos_of_ne_zero hnz)
          cases v
          · exact hv
          · simp at hvp
        have := hfix hmem
        omega
  have hd4 : ∀ c ∈ d4.cols, c.missingCount = 0 := by
    obtain ⟨ys, yb, yr, hys, hyb, hyr, hcols⟩ := deriveYears_cols h4
    have hys0 := hd3 _ (getNum_mem hys)
    have hyb0 := hd3 _ (getNum_mem hyb)
    have hyr0 := hd3 _ (getNum_mem hyr)
    simp only [Col.missingCount, countP_isNone_eq_zero] at hys0 hyb0 hyr0
    intro c hc
    rw [hcols] at hc
    rcases List.mem_append.mp hc with hc | hc
    · exact hd3 c hc
    · simp only [List.mem_cons, List.not_mem_nil, or_false] at hc
      rcases hc with rfl | rfl
      · simp only [Col.missingCount, countP_isNone_eq_zero]
        exact subCells_isSome hys0 hyb0
      · simp only [Col.missingCount, countP_isNone_eq_zero]
        exact subCells_isSome hys0 hyr0
  have hd5 : ∀ c ∈ d5.cols, c.missingCount = 0 := by
    obtain ⟨mask, hcols⟩ := dropFixedRows_cols h5
    intro c hc
    rw [hcols] at hc
    obtain ⟨c4, hc4, rfl⟩ := List.mem_map.mp hc
    exact maskCells_missing (hd4 c4 hc4)
  have hout : ∀ c ∈ out.cols, c.missingCount = 0 := by
    intro c hc
    rw [dropFinalCols_cols h6] at hc
    exact hd5 c (List.mem_filter.mp hc).1
  unfold DF.totalMissing
  exact List.sum_eq_zero (by intro x hx; obtain ⟨c, hc, rfl⟩ := List.mem_map.mp hx; exact hout c hc)

/-- C1, witness: the amended statement evaluated on the 23-row table
`tbl23` (no column can sit on the 5% boundary since 23 is not a
multiple of 20): the returned table has zero missing cells. -/
theorem claim_C1_witness :
    (transform_features tbl23).map DF.totalMissing = some 0 := by
  have hs : (transform_features tbl23).isSome := by decide
  obtain ⟨out, hout⟩ := Option.isSome_iff_exists.mp hs
  rw [hout, Option.map_some']
  exact congrArg some (claim_C1_amended tbl23 out (by decide) (by decide) hout)

/-! ## Claim C4: the cardinality filter ignores `uniq_threshold` -/

theorem find_of_nodup {cols : List Col} {c : Col}
    (hnd : (cols.map Col.name).Nodup) (hc : c ∈ cols) :
    cols.find? (fun x => x.name == c.name) = some c := by
  induction cols with
  | nil => cases hc
  | cons d ds ih =>
    simp only [List.map_cons, List.nodup_cons] at hnd
    rcases List.mem_cons.mp hc with rfl | hmem
    · simp [List.find?_cons_of_pos]
    · have hne : (d.name == c.name) = false := by
        simp only [beq_eq_false_iff_ne, ne_eq]
        intro he
        exact hnd.1 (he ▸ List.mem_map_of_mem Col.name hmem)
      rw [List.find?_cons_of_neg _ (by simp [hne])]
      exact ih hnd.2 hmem

theorem mem_nominalDropNames_iff {df : DF} {c : Col}
    (hnd : (df.cols.map Col.name).Nodup) (hmem : c ∈ df.cols) :
    c.name ∈ nominalDropNames df ↔ (c.name ∈ nominal_features ∧ 10 < c.nuniq) := by
  unfold nominalDropNames
  rw [List.mem_filter, List.mem_filter]
  constructor
  · rintro ⟨⟨hnom, -⟩, hpred⟩
    rw [find_of_nodup hnd hmem] at hpred
    exact ⟨hnom, by simpa using hpred⟩
  · rintro ⟨hnom, hgt⟩
    refine ⟨⟨hnom, ?_⟩, ?_⟩
    · have : c.name ∈ df.colNames := List.mem_map_of_mem Col.name hmem
      simpa [List.elem_iff] using this
    · rw [find_of_nodup hnd hmem]
      simpa using hgt

theorem cardStep_cols_iff (df : DF) (c : Col)
    (hnd : (df.cols.map Col.name).Nodup) :
    c ∈ (cardStep df).cols ↔ c ∈ df.cols ∧ ¬(c.name ∈ nominal_features ∧ 10 < c.nuniq) := by
  unfold cardStep
  simp only [List.mem_filter, Bool.not_eq_true']
  constructor
  · rintro ⟨hmem, hpred⟩
    refine ⟨hmem, fun hcon => ?_⟩
    have := (mem_nominalDropNames_iff hnd hmem).mpr hcon
    simp [List.elem_iff, this] at hpred
  · rintro ⟨hmem, hnot⟩
    refine ⟨hmem, ?_⟩
    have : c.name ∉ nominalDropNames df := fun hin =>
      hnot ((mem_nominalDropNames_iff hnd hmem).mp hin)
    simpa [List.elem_iff] using this

/-- C4, counterexample: with `uniq_threshold = 3`, the claim says the
allow-listed column `Street` (4 distinct values, more than 3) is
dropped, but `select_features` keeps it: the code compares distinct
counts against the literal 10, never against `uniq_threshold`. -/
theorem claim_C4_counterexample :
    (select_features tblStreet (2/5) 3).map DF.colNames = some ["Street", "SalePrice"] ∧
    (Col.num "Street" [some 1, some 2, some 3, some 4]).nuniq = 4 := by
  constructor
  · with_unfolding_all rfl
  · decide

/-- C4, amended: `select_features` is entirely independent of its
`uniq_threshold` parameter, and its cardinality filter drops exactly
those allow-listed columns (in a table with unique column names) whose
distinct-value count exceeds the literal 10. -/
theorem claim_C4_amended :
    (∀ df ct u v, select_features df ct u = select_features df ct v) ∧
    (∀ df c, (df.cols.map Col.name).Nodup →
      (c ∈ (cardStep df).cols ↔ c ∈ df.cols ∧ ¬(c.name ∈ nominal_features ∧ 10 < c.nuniq))) :=
  ⟨fun _ _ _ _ => rfl, fun df c hnd => cardStep_cols_iff df c hnd⟩

/-- C4, witness: the amended statement at the concrete table
`tblStreet`: changing `uniq_threshold` from 3 to 10 does not change the
result, and the `Street` column (4 distinct values, on the allow-list)
is retained by the cardinality filter. -/
theorem claim_C4_witness :
    select_features tblStreet (2/5) 3 = select_features tblStreet (2/5) 10 ∧
    (Col.num "Street" [some 1, some 2, some 3, some 4] ∈ (cardStep tblStreet).cols ↔
      Col.num "Street" [some 1, some 2, some 3, some 4] ∈ tblStreet.cols ∧
      ¬("Street" ∈ nominal_features ∧
        10 < (Col.num "Street" [some 1, some 2, some 3, some 4]).nuniq)) :=
  ⟨claim_C4_amended.1 tblStreet (2/5) 3 10,
   claim_C4_amended.2 tblStreet (Col.num "Street" [some 1, some 2, some 3, some 4]) (by decide)⟩

/-! ## Claim C5: the correlation filter and undefined correlations -/

theorem eq_of_name_of_nodup {cols : List Col} {c d : Col}
    (hnd : (cols.map Col.name).Nodup) (hc : c ∈ cols) (hd : d ∈ cols)
    (he : c.name = d.name) : c = d :=
  List.inj_on_of_nodup_map hnd hc hd he

theorem corrStep_decomp {df : DF} {ct : ℚ} {out : DF} (h : corrStep df ct = some out) :
    out.cols = df.cols.filter (fun c =>
      !(((df.cols.filter Col.isNum).filterMap (fun c2 =>
          match c2 with
          | Col.num nm cs => if absCorrLT cs (spCells df) ct then some nm else none
          | Col.str _ _ => none)).contains c.name)) := by
  unfold corrStep at h
  split at h
  case _ nm2 sp heq =>
    obtain rfl := Option.some.inj h
    have hsp : spCells df = sp := by unfold spCells; rw [heq]
    rw [hsp]
  case _ => exact absurd h (by simp)

/-- C5, amended: in a table with unique column names on which the
correlation filter runs (SalePrice present and numeric), a numeric
column is retained exactly when its Pearson correlation with SalePrice
is undefined (kept because NaN fails the strict `<` drop test) or its
absolute correlation is at least `coeff_threshold`; in particular a
column whose absolute correlation equals the threshold exactly is
retained. -/
theorem claim_C5_amended (df : DF) (ct : ℚ) (out : DF) (nm : String) (cs : List (Option ℚ))
    (hnd : (df.cols.map Col.name).Nodup)
    (h : corrStep df ct = some out) (hmem : Col.num nm cs ∈ df.cols) :
    (Col.num nm cs ∈ out.cols ↔
      corrDefined cs (spCells df) = false ∨ absCorrGE cs (spCells df) ct = true) := by
  rw [corrStep_decomp h, List.mem_filter]
  have hdrop : (nm ∈ (df.cols.filter Col.isNum).filterMap (fun c2 =>
      match c2 with
      | Col.num nm2 cs2 => if absCorrLT cs2 (spCells df) ct then some nm2 else none
      | Col.str _ _ => none)) ↔ absCorrLT cs (spCells df) ct = true := by
    constructor
    · intro hin
      obtain ⟨c2, hc2, hval⟩ := List.mem_filterMap.mp hin
      cases c2 with
      | str nm2 cs2 => exact Option.noConfusion hval
      | num nm2 cs2 =>
        dsimp only at hval
        by_cases hlt : absCorrLT cs2 (spCells df) ct = true
        · rw [if_pos hlt] at hval
          obtain rfl := Option.some.inj hval
          have := eq_of_name_of_nodup hnd ((List.mem_filter.mp hc2).1) hmem (rfl : (Col.num nm2 cs2).name = nm2)
          obtain rfl : cs2 = cs := by cases this; rfl
          exact hlt
        · rw [if_neg hlt] at hval; cases hval
    · intro hlt
      refine List.mem_filterMap.mpr ⟨Col.num nm cs, List.mem_filter.mpr ⟨hmem, rfl⟩, ?_⟩
      dsimp only
      rw [if_pos hlt]
  constructor
  · rintro ⟨-, hpred⟩
    have hnin : ¬(absCorrLT cs (spCells df) ct = true) := by
      intro hlt
      simp only [Bool.not_eq_true', List.contains_eq_any_beq, List.any_eq_false] at hpred
      have hcon := hpred nm (hdrop.mpr hlt)
      exact hcon (by simp [Col.name])
    unfold absCorrGE
    by_cases hdef : corrDefined cs (spCells df) = true
    · right; simp [hdef, hnin]
    · left; simpa using hdef
  · intro hor
    refine ⟨hmem, ?_⟩
    have hnlt : ¬(absCorrLT cs (spCells df) ct = true) := by
      rcases hor with hdef | hge
      · intro hlt
        unfold absCorrLT at hlt
        simp only [decide_eq_true_eq] at hlt
        rw [hlt.1] at hdef; cases hdef
      · unfold absCorrGE at hge
        simp only [decide_eq_true_eq] at hge
        have h2 := hge.2
        simp only [Bool.not_eq_true'] at h2
        simp [h2]
    have hnin : nm ∉ (df.cols.filter Col.isNum).filterMap (fun c2 =>
        match c2 with
        | Col.num nm2 cs2 => if absCorrLT cs2 (spCells df) ct then some nm2 else none
        | Col.str _ _ => none) := fun hin => hnlt (hdrop.mp hin)
    simpa using hnin

/-- C5, counterexample: the claim says the correlation filter retains a
numeric column iff its absolute Pearson correlation with SalePrice
meets the threshold, deciding a constant column by the same rule; but
the constant column `K` has an undefined (NaN) correlation, which meets
no threshold, and `select_features` retains it anyway because the
code's drop test `abs_corr < threshold` is false for NaN. -/
theorem claim_C5_counterexample :
    (select_features tblConst (2/5) 10).map DF.colNames = some ["K", "SalePrice"] ∧
    corrDefined [some 1, some 1, some 1] [some 1, some 2, some 3] = false ∧
    absCorrGE [some 1, some 1, some 1] [some 1, some 2, some 3] (2/5) = false := by
  refine ⟨?_, ?_, ?_⟩ <;> with_unfolding_all rfl

/-- C5, witness: the amended statement evaluated at the concrete table
`tblConst`: the constant column `K` (undefined correlation) is in the
output of the correlation step. -/
theorem claim_C5_witness :
    (corrStep tblConst (2/5)).map
      (fun out => decide (Col.num "K" [some 1, some 1, some 1] ∈ out.cols)) = some true := by
  have hs : (corrStep tblConst (2/5)).isSome := by with_unfolding_all rfl
  obtain ⟨out, hout⟩ := Option.isSome_iff_exists.mp hs
  rw [hout, Option.map_some']
  have hiff := claim_C5_amended tblConst (2/5) out "K" [some 1, some 1, some 1]
    (by decide) hout (by decide)
  have hdef : corrDefined [some 1, some 1, some 1] (spCells tblConst) = false := by
    with_unfolding_all rfl
  exact congrArg some (decide_eq_true (hiff.mpr (Or.inl hdef)))

/-! ## Claim C6: k-fold reproducibility and the missing random seed -/

/-- C6, counterexample: `train_and_test` in k-fold mode constructs
`KFold(n_splits=k, shuffle=True)` with no `random_state`, so the
realized shuffle is not fixed by any seed parameter: on the same
four-row table with k = 2, two different realized permutations of the
rows produce different mean RMSEs (2 versus √5). -/
theorem claim_C6_counterexample :
    train_and_test tblFold 2 [0, 1, 2, 3] ≠ train_and_test tblFold 2 [0, 3, 1, 2] := by
  have h1 : kfoldMses tblFold 2 [0, 1, 2, 3] = some [4, 4] := by with_unfolding_all rfl
  have h2 : kfoldMses tblFold 2 [0, 3, 1, 2] = some [5, 5] := by with_unfolding_all rfl
  have hdef : ∀ r : List ℕ, train_and_test tblFold 2 r =
      (kfoldMses tblFold 2 r).map
        (fun l => (l.map (fun (m : ℚ) => Real.sqrt (m : ℝ))).sum / (l.length : ℝ)) :=
    fun r => rfl
  rw [hdef, hdef, h1, h2, Option.map_some', Option.map_some']
  intro hEq
  have heq2 := Option.some.inj hEq
  simp only [List.map_cons, List.map_nil, List.sum_cons, List.sum_nil, List.length_cons,
    List.length_nil, add_zero, Rat.cast_ofNat, Nat.cast_ofNat] at heq2
  have h4 : Real.sqrt (4 : ℝ) = 2 := by
    rw [show (4 : ℝ) = 2 ^ 2 by norm_num]
    exact Real.sqrt_sq (by norm_num)
  rw [h4] at heq2
  have hs5 : Real.sqrt (5 : ℝ) = 2 := by linarith
  have hsq := Real.sq_sqrt (by norm_num : (0:ℝ) ≤ 5)
  rw [hs5] at hsq
  norm_num at hsq

/-- C6, amended: the k-fold mean RMSE is a deterministic function of
the table, the fold count and the realized shuffle permutation: two
invocations that consume the same permutation return the same value.
The function itself exposes no seed, so equality across runs holds
only conditionally on the realized shuffle. -/
theorem claim_C6_amended (df : DF) (k : ℕ) (p q : List ℕ) (h : p = q) :
    train_and_test df k p = train_and_test df k q := by rw [h]

/-- C6, witness: the amended statement applied at the concrete table
and permutation of the counterexample. -/
theorem claim_C6_witness :
    train_and_test tblFold 2 [0, 1, 2, 3] = train_and_test tblFold 2 [0, 1, 2, 3] :=
  claim_C6_amended tblFold 2 [0, 1, 2, 3] [0, 1, 2, 3] rfl

/-! ## Claim C8: the two-way cross-check mode ignores its shuffle -/

/-- C8, confirmed: for every table, mode k = 1 of `train_and_test`
returns the same value whatever the realized shuffle permutation is
(the shuffled copy is computed and discarded), and that value is the
arithmetic mean of the two RMSEs obtained by fitting on the first 1460
rows in the table's original order and scoring the remainder, and
vice versa — exactly the spec-modelled `twoWayCrossCheckSpec`. -/
theorem claim_C8_confirmed (df : DF) (p q : List ℕ) :
    train_and_test df 1 p = train_and_test df 1 q ∧
    train_and_test df 1 p = twoWayCrossCheckSpec df := by
  constructor
  · rfl
  · show (crossMses df).map _ = _
    unfold crossMses twoWayCrossCheckSpec
    cases featuresOf df with
    | none => rfl
    | some fs =>
      simp only [Option.some_bind]
      cases splitMse (DF.take 1460 df) (DF.drop 1460 df) fs with
      | none => rfl
      | some a =>
        simp only [Option.some_bind]
        cases splitMse (DF.drop 1460 df) (DF.take 1460 df) fs with
        | none => rfl
        | some b => rfl

/-! ## Claim C10: holdout mode errors on tables of at most 1460 rows -/

theorem seqOpt_some_length {l : List (Option α)} {ys : List α} (h : seqOpt l = some ys) :
    ys.length = l.length := by
  induction l generalizing ys with
  | nil => obtain rfl := Option.some.inj h; rfl
  | cons o os ih =>
    cases o with
    | none => simp [seqOpt] at h
    | some a =>
      unfold seqOpt at h
      cases hrec : seqOpt os with
      | none => rw [hrec] at h; exact absurd h (by simp)
      | some rest =>
        rw [hrec] at h
        obtain rfl := Option.some.inj h
        simp [ih hrec]

/-- C10, confirmed: on a well-formed table with at most 1460 rows, the
holdout mode (k = 0) of `train_and_test` surfaces an error rather than
returning a value: the positional split leaves the test partition
empty, and the mean squared error of an empty test set is undefined
(sklearn raises). -/
theorem claim_C10_confirmed (df : DF) (p : List ℕ) (hwf : df.WF) (h : df.len ≤ 1460) :
    train_and_test df 0 p = none := by
  have hdef : train_and_test df 0 p = (holdoutMse df).map (fun (m : ℚ) => Real.sqrt (m : ℝ)) :=
    rfl
  rw [hdef]
  suffices hh : holdoutMse df = none by rw [hh]; rfl
  unfold holdoutMse
  cases hf : featuresOf df with
  | none => rfl
  | some fs =>
    simp only [Option.some_bind]
    unfold splitMse
    cases hx : extractX (DF.take 1460 df) fs with
    | none => rfl
    | some Xtr =>
      simp only [Option.some_bind]
      cases hy : extractY (DF.take 1460 df) with
      | none => rfl
      | some ytr =>
        simp only [Option.some_bind]
        cases hm : fit Xtr ytr with
        | none => rfl
        | some m =>
          simp only [Option.some_bind]
          cases hxe : extractX (DF.drop 1460 df) fs with
          | none => rfl
          | some Xte =>
            simp only [Option.some_bind]
            cases hye : extractY (DF.drop 1460 df) with
            | none => rfl
            | some yte =>
              simp only [Option.some_bind]
              simp only [extractY, Option.bind_eq_some] at hye
              obtain ⟨cs, hcs, hseq⟩ := hye
              have hmem := getNum_mem hcs
              obtain ⟨c0, hc0, hdropEq⟩ := List.mem_map.mp hmem
              have hsize : c0.size = df.labels.length := hwf.1 c0 hc0
              have hcs_nil : cs = [] := by
                cases c0 with
                | num nm0 cs0 =>
                  simp only [Col.dropCells] at hdropEq
                  obtain ⟨-, hcells⟩ := Col.num.inj hdropEq
                  rw [← hcells]
                  exact List.drop_eq_nil_of_le (by
                    have hlen2 : df.len = df.labels.length := rfl
                    simp only [Col.size] at hsize
                    omega)
                | str nm0 cs0 => simp [Col.dropCells] at hdropEq
              subst hcs_nil
              obtain rfl : ([] : List ℚ) = yte := by
                simpa [seqOpt] using hseq
              simp [mseOf]

/-- C10, witness: the confirmed statement evaluated on the concrete
two-row table: holdout mode returns no value. -/
theorem claim_C10_witness :
    tblSmall.len ≤ 1460 ∧ train_and_test tblSmall 0 [] = none :=
  ⟨by decide, claim_C10_confirmed tblSmall [] (by decide) (by decide)⟩

/-! ## Claim C7: what actually makes the holdout fit fail -/

theorem seqOpt_isSome_of_forall {l : List (Option α)} (h : ∀ o ∈ l, o.isSome = true) :
    (seqOpt l).isSome = true := by
  induction l with
  | nil => rfl
  | cons o os ih =>
    cases o with
    | none => exact absurd (h none (by simp)) (by simp)
    | some a =>
      have hrec := ih (fun o ho => h o (by simp [ho]))
      obtain ⟨rest, hrest⟩ := Option.isSome_iff_exists.mp hrec
      simp [seqOpt, hrest]

theorem seqOpt_mem {l : List (Option α)} {ys : List α} (h : seqOpt l = some ys) :
    ∀ y ∈ ys, some y ∈ l := by
  induction l generalizing ys with
  | nil => obtain rfl := Option.some.inj h; intro y hy; cases hy
  | cons o os ih =>
    cases o with
    | none => simp [seqOpt] at h
    | some a =>
      unfold seqOpt at h
      cases hrec : seqOpt os with
      | none => rw [hrec] at h; exact absurd h (by simp)
      | some rest =>
        rw [hrec] at h
        obtain rfl := Option.some.inj h
        intro y hy
        rcases List.mem_cons.mp hy with rfl | hy2
        · exact List.mem_cons_self _ _
        · exact List.mem_cons_of_mem _ (ih hrec y hy2)

theorem zipRows_length {cls : List (List (Option ℚ))} {n : ℕ} {X : List (List ℚ)}
    (h : zipRows cls n = some X) : X.length = n := by
  induction n generalizing cls X with
  | zero => obtain rfl := Option.some.inj h; rfl
  | succ k ih =>
    unfold zipRows at h
    cases h1 : seqOpt (cls.map (fun c => c.head?.join)) with
    | none => rw [h1] at h; exact absurd h (by simp)
    | some hd =>
      rw [h1] at h
      cases h2 : zipRows (cls.map List.tail) k with
      | none => rw [h2] at h; exact absurd h (by simp)
      | some tl =>
        rw [h2] at h
        obtain rfl := Option.some.inj h
        simp [ih h2]

theorem zipRows_rows {cls : List (List (Option ℚ))} {n : ℕ} {X : List (List ℚ)}
    (h : zipRows cls n = some X) : ∀ r ∈ X, r.length = cls.length := by
  induction n generalizing cls X with
  | zero => obtain rfl := Option.some.inj h; intro r hr; cases hr
  | succ k ih =>
    unfold zipRows at h
    cases h1 : seqOpt (cls.map (fun c => c.head?.join)) with
    | none => rw [h1] at h; exact absurd h (by simp)
    | some hd =>
      rw [h1] at h
      cases h2 : zipRows (cls.map List.tail) k with
      | none => rw [h2] at h; exact absurd h (by simp)
      | some tl =>
        rw [h2] at h
        obtain rfl := Option.some.inj h
        intro r hr
        rcases List.mem_cons.mp hr with rfl | hr2
        · rw [seqOpt_some_length h1, List.length_map]
        · rw [ih h2 r hr2, List.length_map]

theorem zipRows_isSome {cls : List (List (Option ℚ))} {n : ℕ}
    (h : ∀ cl ∈ cls, cl.length = n ∧ ∀ v ∈ cl, v.isSome = true) :
    (zipRows cls n).isSome = true := by
  induction n generalizing cls with
  | zero => rfl
  | succ k ih =>
    unfold zipRows
    have hhd : (seqOpt (cls.map (fun c => c.head?.join))).isSome = true := by
      apply seqOpt_isSome_of_forall
      intro o ho
      obtain ⟨cl, hclmem, rfl⟩ := List.mem_map.mp ho
      obtain ⟨hlen, hsome⟩ := h cl hclmem
      cases cl with
      | nil => simp at hlen
      | cons v vs =>
        have := hsome v (by simp)
        obtain ⟨a, rfl⟩ := Option.isSome_iff_exists.mp this
        simp
    have htl : (zipRows (cls.map List.tail) k).isSome = true := by
      apply ih
      intro cl hcl
      obtain ⟨cl0, hcl0, rfl⟩ := List.mem_map.mp hcl
      obtain ⟨hlen, hsome⟩ := h cl0 hcl0
      cases cl0 with
      | nil => simp at hlen
      | cons v vs =>
        constructor
        · simp only [List.tail_cons]
          simp only [List.length_cons] at hlen
          omega
        · intro w hw
          simp only [List.tail_cons] at hw
          exact hsome w (by simp [hw])
    obtain ⟨hd, hhd2⟩ := Option.isSome_iff_exists.mp hhd
    obtain ⟨tl, htl2⟩ := Option.isSome_iff_exists.mp htl
    rw [hhd2, htl2]
    rfl

theorem takeCells_name (n : ℕ) (c : Col) : (Col.takeCells n c).name = c.name := by
  cases c <;> rfl

theorem dropCells_name (n : ℕ) (c : Col) : (Col.dropCells n c).name = c.name := by
  cases c <;> rfl

theorem filter_name_eq_of_nodup {cols : List Col} {c : Col} {nm : String}
    (hnd : (cols.map Col.name).Nodup) (hc : c ∈ cols) (hname : c.name = nm) :
    cols.filter (fun x => x.name == nm) = [c] := by
  induction cols with
  | nil => cases hc
  | cons d ds ih =>
    simp only [List.map_cons, List.nodup_cons] at hnd
    rcases List.mem_cons.mp hc with rfl | hmem
    · rw [List.filter_cons_of_pos (by simp [hname])]
      congr 1
      apply List.filter_eq_nil_iff.mpr
      intro x hx
      simp only [beq_iff_eq]
      intro he
      rw [← hname] at he
      exact hnd.1 (he ▸ List.mem_map_of_mem Col.name hx)
    · have hne : (d.name == nm) = false := by
        simp only [beq_eq_false_iff_ne, ne_eq]
        intro he
        rw [← hname] at he
        exact hnd.1 (he ▸ List.mem_map_of_mem Col.name hmem)
      rw [List.filter_cons_of_neg (by simp [hne])]
      exact ih hnd.2 hmem

theorem getNum_of_mem_nodup {df : DF} {nm : String} {cs : List (Option ℚ)}
    (hnd : (df.cols.map Col.name).Nodup) (hmem : Col.num nm cs ∈ df.cols) :
    df.getNum nm = some cs := by
  unfold DF.getNum
  rw [filter_name_eq_of_nodup hnd hmem (show (Col.num nm cs).name = nm from rfl)]

theorem getNum_take (df : DF) (n : ℕ) (nm : String) :
    (DF.take n df).getNum nm = (df.getNum nm).map (List.take n) := by
  unfold DF.getNum DF.take
  simp only []
  rw [List.filter_map]
  have hpred : ((fun c => c.name == nm) ∘ Col.takeCells n) = (fun c => c.name == nm) := by
    funext c; simp [Function.comp, takeCells_name]
  rw [hpred]
  cases hfil : df.cols.filter (fun c => c.name == nm) with
  | nil => rfl
  | cons a as =>
    cases as with
    | nil => cases a <;> rfl
    | cons b bs => cases a <;> cases b <;> rfl

theorem getNum_drop (df : DF) (n : ℕ) (nm : String) :
    (DF.drop n df).getNum nm = (df.getNum nm).map (List.drop n) := by
  unfold DF.getNum DF.drop
  simp only []
  rw [List.filter_map]
  have hpred : ((fun c => c.name == nm) ∘ Col.dropCells n) = (fun c => c.name == nm) := by
    funext c; simp [Function.comp, dropCells_name]
  rw [hpred]
  cases hfil : df.cols.filter (fun c => c.name == nm) with
  | nil => rfl
  | cons a as =>
    cases as with
    | nil => cases a <;> rfl
    | cons b bs => cases a <;> cases b <;> rfl

theorem fit_isSome {X : List (List ℚ)} {y : List ℚ} {r0 : List ℚ} {Xs : List (List ℚ)}
    (hX : X = r0 :: Xs) (hd : r0.length ≠ 0)
    (hall : ∀ r ∈ X, r.length = r0.length) (hy : y.length = X.length) :
    (fit X y).isSome = true := by
  subst hX
  unfold fit
  dsimp only
  rw [if_neg]
  · rfl
  · push_neg
    refine ⟨hd, ?_, hy⟩
    simp only [List.all_eq_true, decide_eq_true_eq]
    exact hall

theorem fit_some_shape {X : List (List ℚ)} {y : List ℚ} {m : List ℚ × ℚ}
    (h : fit X y = some m) : ∃ r0 Xs, X = r0 :: Xs ∧ r0.length ≠ 0 := by
  unfold fit at h
  cases X with
  | nil => exact absurd h (by simp)
  | cons r0 Xs =>
    refine ⟨r0, Xs, rfl, fun hzero => ?_⟩
    dsimp only at h
    rw [if_pos (Or.inl hzero)] at h
    cases h

theorem mseOf_isSome {ys preds : List ℚ} (h1 : ys.length = preds.length)
    (h2 : 0 < ys.length) : (mseOf ys preds).isSome = true := by
  unfold mseOf
  rw [if_pos ⟨h1, h2⟩]
  rfl

theorem featuresOf_eq {df : DF} {fs : List String} (h : featuresOf df = some fs) :
    "SalePrice" ∈ (df.cols.filter Col.isNum).map Col.name ∧
    fs = ((df.cols.filter Col.isNum).map Col.name).filter (fun nm => !(nm == "SalePrice")) := by
  unfold featuresOf at h
  dsimp only at h
  split at h
  case _ hc =>
    refine ⟨by simpa [List.elem_iff] using hc, (Option.some.inj h).symm⟩
  case _ => exact absurd h (by simp)

theorem exists_numCol_of_mem {df : DF} {nm : String}
    (h : nm ∈ (df.cols.filter Col.isNum).map Col.name) :
    ∃ cs, Col.num nm cs ∈ df.cols := by
  obtain ⟨c, hc, rfl⟩ := List.mem_map.mp h
  obtain ⟨hmem, hnum⟩ := List.mem_filter.mp hc
  cases c with
  | num nm2 cs => exact ⟨cs, hmem⟩
  | str nm2 cs => simp [Col.isNum] at hnum

/-- C7, amended: on a well-formed table with more than 1460 rows and no
missing value in any numeric column, holdout-mode `train_and_test`
returns a numeric RMSE exactly when the retained feature set is
non-empty.  An empty feature set makes the sklearn fit raise (0
features), but — contrary to the claim — fewer than two distinct
`SalePrice` values in the training partition cause no error: ordinary
least squares on a constant target simply fits the constant. -/
theorem claim_C7_amended (df : DF) (p : List ℕ)
    (hwf : df.WF) (hn : 1460 < df.len)
    (hcomp : ∀ c ∈ df.cols, c.isNum = true → c.missingCount = 0) :
    ((train_and_test df 0 p).isSome = true ↔
      ∃ fs, featuresOf df = some fs ∧ fs ≠ []) := by
  have hdef : train_and_test df 0 p = (holdoutMse df).map (fun (m : ℚ) => Real.sqrt (m : ℝ)) :=
    rfl
  have hmap : ((holdoutMse df).map (fun (m : ℚ) => Real.sqrt (m : ℝ))).isSome
      = (holdoutMse df).isSome := by
    cases holdoutMse df <;> rfl
  rw [hdef, hmap]
  constructor
  · intro hs
    obtain ⟨v, hv⟩ := Option.isSome_iff_exists.mp hs
    unfold holdoutMse at hv
    rw [Option.bind_eq_some] at hv
    obtain ⟨fs, hfs, hsplit⟩ := hv
    refine ⟨fs, hfs, ?_⟩
    unfold splitMse at hsplit
    rw [Option.bind_eq_some] at hsplit
    obtain ⟨Xtr, hXtr, hrest⟩ := hsplit
    rw [Option.bind_eq_some] at hrest
    obtain ⟨ytr, hytr, hrest2⟩ := hrest
    rw [Option.bind_eq_some] at hrest2
    obtain ⟨m, hm, -⟩ := hrest2
    obtain ⟨r0, Xs, hXeq, hd0⟩ := fit_some_shape hm
    unfold extractX at hXtr
    rw [Option.bind_eq_some] at hXtr
    obtain ⟨cls, hcls, hzip⟩ := hXtr
    have hrow := zipRows_rows hzip r0 (by rw [hXeq]; exact List.mem_cons_self _ _)
    have hclen := seqOpt_some_length hcls
    rw [List.length_map] at hclen
    intro hfs_nil
    subst hfs_nil
    simp only [List.length_nil] at hclen
    rw [hclen] at hrow
    exact hd0 hrow
  · rintro ⟨fs, hfs, hne⟩
    obtain ⟨hsp, hfs_eq⟩ := featuresOf_eq hfs
    have hnd := hwf.2
    obtain ⟨spc, hspmem⟩ := exists_numCol_of_mem hsp
    have hspget : df.getNum "SalePrice" = some spc := getNum_of_mem_nodup hnd hspmem
    have hcompl : ∀ (nm : String) (cs : List (Option ℚ)), Col.num nm cs ∈ df.cols →
        ∀ v ∈ cs, v.isSome = true := by
      intro nm cs hmem
      have h0 := hcomp _ hmem rfl
      simp only [Col.missingCount] at h0
      exact countP_isNone_eq_zero.mp h0
    have hsize : ∀ (nm : String) (cs : List (Option ℚ)), Col.num nm cs ∈ df.cols →
        cs.length = df.len := by
      intro nm cs hmem
      have h0 := hwf.1 _ hmem
      simpa [Col.size, DF.len] using h0
    have htr_len : (DF.take 1460 df).len = 1460 := by
      show (df.labels.take 1460).length = 1460
      rw [List.length_take]
      have h2 : df.len = df.labels.length := rfl
      omega
    have hte_len : (DF.drop 1460 df).len = df.len - 1460 := by
      simp only [DF.drop, DF.len, List.length_drop]
    have hclsP : ∀ f ∈ fs, ∃ cs, df.getNum f = some cs ∧ cs.length = df.len ∧
        (∀ v ∈ cs, v.isSome = true) := by
      intro f hf
      rw [hfs_eq] at hf
      have hf2 := (List.mem_filter.mp hf).1
      obtain ⟨cs, hmem⟩ := exists_numCol_of_mem hf2
      exact ⟨cs, getNum_of_mem_nodup hnd hmem, hsize _ _ hmem, hcompl _ _ hmem⟩
    -- the training slice
    have hseqtr : (seqOpt (fs.map (fun f => (DF.take 1460 df).getNum f))).isSome = true := by
      apply seqOpt_isSome_of_forall
      intro o ho
      obtain ⟨f, hfm, rfl⟩ := List.mem_map.mp ho
      obtain ⟨cs, hget, -, -⟩ := hclsP f hfm
      rw [getNum_take, hget]
      rfl
    obtain ⟨cls, hcls⟩ := Option.isSome_iff_exists.mp hseqtr
    have hclprop : ∀ cl ∈ cls, cl.length = (DF.take 1460 df).len ∧
        ∀ v ∈ cl, v.isSome = true := by
      intro cl hcl
      have hsome := seqOpt_mem hcls cl hcl
      obtain ⟨f, hfm, hgeq⟩ := List.mem_map.mp hsome
      obtain ⟨cs, hget, hlen, hsomecs⟩ := hclsP f hfm
      rw [getNum_take, hget, Option.map_some'] at hgeq
      obtain rfl := Option.some.inj hgeq
      constructor
      · rw [htr_len, List.length_take]
        omega
      · intro v hv
        exact hsomecs v (List.take_subset _ _ hv)
    have hzipX := zipRows_isSome hclprop
    obtain ⟨Xtr, hzipXeq⟩ := Option.isSome_iff_exists.mp hzipX
    have hExtrX : extractX (DF.take 1460 df) fs = some Xtr := by
      unfold extractX
      rw [hcls, Option.some_bind, hzipXeq]
    -- the training target
    have hytrseq : (seqOpt (spc.take 1460)).isSome = true := by
      apply seqOpt_isSome_of_forall
      intro o ho
      exact hcompl _ _ hspmem o (List.take_subset _ _ ho)
    obtain ⟨ytr, hytr⟩ := Option.isSome_iff_exists.mp hytrseq
    have hExtrY : extractY (DF.take 1460 df) = some ytr := by
      unfold extractY
      rw [getNum_take, hspget, Option.map_some', Option.some_bind, hytr]
    -- the fit succeeds
    have hXlen : Xtr.length = 1460 := by
      have := zipRows_length hzipXeq
      rw [htr_len] at this
      exact this
    have hfit : (fit Xtr ytr).isSome = true := by
      cases hX0 : Xtr with
      | nil => rw [hX0] at hXlen; simp at hXlen
      | cons r0 Xs =>
        have hrows := zipRows_rows hzipXeq
        have hr0 : r0.length = cls.length := hrows r0 (by rw [hX0]; exact List.mem_cons_self _ _)
        have hclsl : cls.length = fs.length := by
          have := seqOpt_some_length hcls
          rw [List.length_map] at this
          exact this
        apply fit_isSome rfl
        · rw [hr0, hclsl]
          intro hcon
          exact hne (List.length_eq_zero.mp hcon)
        · intro r hr
          rw [hrows r (by rw [hX0]; exact hr), ← hr0]
        · have hy1 := seqOpt_some_length hytr
          rw [hX0] at hXlen
          simp only [List.length_cons] at hXlen
          have hsl := hsize _ _ hspmem
          rw [hy1, List.length_take]
          simp only [List.length_cons]
          omega
    obtain ⟨m, hfiteq⟩ := Option.isSome_iff_exists.mp hfit
    -- the test slice
    have hseqte : (seqOpt (fs.map (fun f => (DF.drop 1460 df).getNum f))).isSome = true := by
      apply seqOpt_isSome_of_forall
      intro o ho
      obtain ⟨f, hfm, rfl⟩ := List.mem_map.mp ho
      obtain ⟨cs, hget, -, -⟩ := hclsP f hfm
      rw [getNum_drop, hget]
      rfl
    obtain ⟨clste, hclste⟩ := Option.isSome_iff_exists.mp hseqte
    have hclpropte : ∀ cl ∈ clste, cl.length = (DF.drop 1460 df).len ∧
        ∀ v ∈ cl, v.isSome = true := by
      intro cl hcl
      have hsome := seqOpt_mem hclste cl hcl
      obtain ⟨f, hfm, hgeq⟩ := List.mem_map.mp hsome
      obtain ⟨cs, hget, hlen, hsomecs⟩ := hclsP f hfm
      rw [getNum_drop, hget, Option.map_some'] at hgeq
      obtain rfl := Option.some.inj hgeq
      constructor
      · rw [hte_len, List.length_drop, hlen]
      · intro v hv
        exact hsomecs v (List.drop_subset _ _ hv)
    have hzipXte := zipRows_isSome hclpropte
    obtain ⟨Xte, hzipXteEq⟩ := Option.isSome_iff_exists.mp hzipXte
    have hExtrXte : extractX (DF.drop 1460 df) fs = some Xte := by
      unfold extractX
      rw [hclste, Option.some_bind, hzipXteEq]
    -- the test target
    have hyteseq : (seqOpt (spc.drop 1460)).isSome = true := by
      apply seqOpt_isSome_of_forall
      intro o ho
      exact hcompl _ _ hspmem o (List.drop_subset _ _ ho)
    obtain ⟨yte, hyte⟩ := Option.isSome_iff_exists.mp hyteseq
    have hExtrYte : extractY (DF.drop 1460 df) = some yte := by
      unfold extractY
      rw [getNum_drop, hspget, Option.map_some', Option.some_bind, hyte]
    -- the mean squared error of the test slice
    have hytelen : yte.length = df.len - 1460 := by
      rw [seqOpt_some_length hyte, List.length_drop, hsize _ _ hspmem]
    have hmse : (mseOf yte (predict m Xte)).isSome = true := by
      apply mseOf_isSome
      · unfold predict
        rw [List.length_map, zipRows_length hzipXteEq, hte_len, hytelen]
      · rw [hytelen]
        omega
    obtain ⟨q, hmseq⟩ := Option.isSome_iff_exists.mp hmse
    have hfinal : holdoutMse df = some q := by
      unfold holdoutMse splitMse
      rw [hfs, Option.some_bind, hExtrX, Option.some_bind, hExtrY, Option.some_bind,
        hfiteq, Option.some_bind, hExtrXte, Option.some_bind, hExtrYte, Option.some_bind,
        hmseq]
    rw [hfinal]
    rfl

theorem fit_const_single (m : ℕ) (q y : ℚ) :
    fit (List.replicate (m+1) [q]) (List.replicate (m+1) y) = some ([0], y) := by
  rw [List.replicate_succ]
  unfold fit
  dsimp only
  rw [if_neg]
  case hnc =>
    push_neg
    refine ⟨by simp, ?_, by simp⟩
    simp only [List.all_eq_true, decide_eq_true_eq]
    intro r hr
    rcases List.mem_cons.mp hr with rfl | hr2
    · rfl
    · rw [List.eq_of_mem_replicate hr2]
  have e1 : ([q] :: List.replicate m [q] : List (List ℚ)) = List.replicate (m+1) [q] :=
    (List.replicate_succ _ _).symm
  have hr1 : List.range 1 = [0] := rfl
  have hc : ((m:ℚ)+1) ≠ 0 := by positivity
  have hdiv : ∀ a : ℚ, ((m:ℚ)+1) * a / ((m:ℚ)+1) = a := fun a => mul_div_cancel_left₀ a hc
  have hg : gaussSolve 1 [[(0:ℚ), 0]] = [0] := rfl
  rw [e1]
  simp only [List.length_singleton, List.length_replicate, colsOf, hr1,
    List.map_cons, List.map_nil, List.map_replicate, List.getD_cons_zero,
    List.sum_replicate, smul_eq_mul, Nat.cast_add, Nat.cast_one, hdiv,
    vecSub, List.zipWith_cons_cons, List.zipWith_nil_right, sub_self,
    dot, List.zipWith_replicate', mul_zero, zero_mul, List.sum_cons, List.sum_nil,
    add_zero, List.cons_append, List.nil_append, hg, matVec, sub_zero,
    nsmul_eq_mul, smul_zero]

theorem seqOpt_replicate_some {α : Type} (a : α) :
    ∀ n, seqOpt (List.replicate n (some a)) = some (List.replicate n a)
  | 0 => rfl
  | n + 1 => by
    rw [List.replicate_succ]
    unfold seqOpt
    rw [seqOpt_replicate_some a n, List.replicate_succ]

theorem zipRows_single_replicate (q : ℚ) :
    ∀ n, zipRows [List.replicate n (some q)] n = some (List.replicate n [q])
  | 0 => rfl
  | n + 1 => by
    rw [List.replicate_succ]
    unfold zipRows
    have h1 : [some q :: List.replicate n (some q)].map (fun c => c.head?.join) = [some q] := rfl
    have h2 : [some q :: List.replicate n (some q)].map List.tail
        = [List.replicate n (some q)] := rfl
    rw [h1, h2]
    have h3 : seqOpt [some q] = some [q] := rfl
    rw [h3, zipRows_single_replicate q n, List.replicate_succ]

theorem tblConstTarget_train :
    DF.take 1460 tblConstTarget = ⟨List.replicate 1460 0,
      [Col.num "F" (List.replicate 1460 (some 7)),
       Col.num "SalePrice" (List.replicate 1460 (some 5))]⟩ := by
  unfold DF.take tblConstTarget
  simp only [Col.takeCells, List.take_replicate, List.map_cons, List.map_nil]
  norm_num

theorem tblConstTarget_test :
    DF.drop 1460 tblConstTarget = ⟨[0],
      [Col.num "F" [some 7], Col.num "SalePrice" [some 5]]⟩ := by
  unfold DF.drop tblConstTarget
  simp only [Col.dropCells, List.drop_replicate, List.map_cons, List.map_nil]
  norm_num

theorem holdout_const : holdoutMse tblConstTarget = some 0 := by
  unfold holdoutMse
  have hfs : featuresOf tblConstTarget = some ["F"] := by decide
  rw [hfs, Option.some_bind]
  unfold splitMse
  rw [tblConstTarget_train, tblConstTarget_test]
  have hX : extractX ⟨List.replicate 1460 0,
      [Col.num "F" (List.replicate 1460 (some 7)),
       Col.num "SalePrice" (List.replicate 1460 (some 5))]⟩ ["F"]
      = some (List.replicate 1460 [7]) := by
    unfold extractX
    have hseq : seqOpt ((["F"] : List String).map (fun f => DF.getNum ⟨List.replicate 1460 0,
        [Col.num "F" (List.replicate 1460 (some 7)),
         Col.num "SalePrice" (List.replicate 1460 (some 5))]⟩ f))
        = some [List.replicate 1460 (some 7)] := rfl
    rw [hseq, Option.some_bind]
    have hlen : DF.len ⟨List.replicate 1460 0,
        [Col.num "F" (List.replicate 1460 (some 7)),
         Col.num "SalePrice" (List.replicate 1460 (some 5))]⟩ = 1460 := by
      simp [DF.len]
    rw [hlen]
    exact zipRows_single_replicate 7 1460
  have hY : extractY ⟨List.replicate 1460 0,
      [Col.num "F" (List.replicate 1460 (some 7)),
       Col.num "SalePrice" (List.replicate 1460 (some 5))]⟩
      = some (List.replicate 1460 5) := by
    unfold extractY
    have hget : DF.getNum ⟨List.replicate 1460 0,
        [Col.num "F" (List.replicate 1460 (some 7)),
         Col.num "SalePrice" (List.replicate 1460 (some 5))]⟩ "SalePrice"
        = some (List.replicate 1460 (some 5)) := rfl
    rw [hget, Option.some_bind]
    exact seqOpt_replicate_some 5 1460
  have hfit : fit (List.replicate 1460 [7]) (List.replicate 1460 (5:ℚ)) = some ([0], 5) := by
    have h : (1460 : ℕ) = 1459 + 1 := by norm_num
    rw [h]
    exact fit_const_single 1459 7 5
  rw [hX, Option.some_bind, hY, Option.some_bind, hfit, Option.some_bind]
  with_unfolding_all rfl

theorem countP_replicate_false {α : Type} (p : α → Bool) (a : α) (hp : p a = false) :
    ∀ n, (List.replicate n a).countP p = 0
  | 0 => rfl
  | n + 1 => by
    rw [List.replicate_succ, List.countP_cons, hp]
    simp [countP_replicate_false p a hp n]

theorem filterMap_id_replicate_some {α : Type} (a : α) :
    ∀ n, (List.replicate n (some a)).filterMap id = List.replicate n a
  | 0 => rfl
  | n + 1 => by
    rw [List.replicate_succ, List.filterMap_cons]
    dsimp only [id]
    rw [filterMap_id_replicate_some a n, List.replicate_succ]

theorem dedup_replicate_succ {α : Type} [DecidableEq α] (a : α) :
    ∀ n, (List.replicate (n+1) a).dedup = [a]
  | 0 => rfl
  | k + 1 => by
    rw [List.replicate_succ]
    rw [List.dedup_cons_of_mem (List.mem_replicate.mpr (by simp))]
    exact dedup_replicate_succ a k

/-- **C7 (counterexample).**  On a 1461-row table whose retained feature
set is the single column `F` and whose `SalePrice` is constantly 5 — so
the 1460-row training partition has exactly one distinct target value —
holdout-mode `train_and_test` returns the numeric RMSE 0 instead of
surfacing an error: ordinary least squares fits a constant target
without complaint, contradicting the claim that fewer than two distinct
training targets must produce an error. -/
theorem claim_C7_counterexample :
    train_and_test tblConstTarget 0 [] = some 0 ∧
    (tblConstTarget.getNum "SalePrice").map
      (fun cs => ((cs.take 1460).filterMap id).dedup.length) = some 1 ∧
    featuresOf tblConstTarget = some ["F"] := by
  refine ⟨?_, ?_, by decide⟩
  · have hdef : train_and_test tblConstTarget 0 []
        = (holdoutMse tblConstTarget).map (fun (m : ℚ) => Real.sqrt (m : ℝ)) := rfl
    rw [hdef, holdout_const, Option.map_some']
    norm_num
  · have hget : tblConstTarget.getNum "SalePrice"
        = some (List.replicate 1461 (some (5:ℚ))) := rfl
    rw [hget, Option.map_some']
    have h1 : (List.replicate 1461 (some (5:ℚ))).take 1460
        = List.replicate 1460 (some (5:ℚ)) := by
      rw [List.take_replicate]
      norm_num
    have h3 : (1460:ℕ) = 1459 + 1 := by norm_num
    rw [h1, filterMap_id_replicate_some (5:ℚ) 1460, h3,
      dedup_replicate_succ (5:ℚ) 1459]
    rfl

/-- **C7 (witness).**  The amended theorem at a concrete input: the
1461-row table whose only numeric column is `SalePrice` itself is
well-formed, has more than 1460 rows, has no missing numeric cell, and
holdout-mode `train_and_test` surfaces an error on it, as its retained
feature set is empty. -/
theorem claim_C7_witness :
    tblNoFeatures.WF ∧ 1460 < tblNoFeatures.len ∧
    (train_and_test tblNoFeatures 0 []).isSome = false := by
  have hwf : tblNoFeatures.WF := by
    constructor
    · intro c hc
      rcases List.mem_singleton.mp hc with rfl
      simp [Col.size, tblNoFeatures]
    · simp [tblNoFeatures]
  have hn : 1460 < tblNoFeatures.len := by
    simp [DF.len, tblNoFeatures]
  have hcomp : ∀ c ∈ tblNoFeatures.cols, c.isNum = true → c.missingCount = 0 := by
    intro c hc _
    rcases List.mem_singleton.mp hc with rfl
    show (List.replicate 1461 (some (5:ℚ))).countP Option.isNone = 0
    exact countP_replicate_false Option.isNone (some 5) rfl 1461
  refine ⟨hwf, hn, ?_⟩
  have hiff := claim_C7_amended tblNoFeatures [] hwf hn hcomp
  cases h : (train_and_test tblNoFeatures 0 []).isSome with
  | false => rfl
  | true =>
    exfalso
    obtain ⟨fs, hfs, hfne⟩ := hiff.mp h
    have hfeats : featuresOf tblNoFeatures = some [] := by decide
    rw [hfeats] at hfs
    exact hfne (Option.some.inj hfs).symm

theorem countP_contains_of_sublist {L M : List String}
    (hs : L.Sublist M) (hnd : M.Nodup) :
    M.countP (fun n => L.contains n) = L.length := by
  induction hs with
  | slnil => rfl
  | @cons l r a hsub ih =>
    have hanr : a ∉ r := (List.nodup_cons.mp hnd).1
    have hal : a ∉ l := fun h => hanr (hsub.subset h)
    rw [List.countP_cons]
    have hfalse : l.contains a = false := by
      simp [List.elem_iff, hal]
    rw [hfalse, ih (List.nodup_cons.mp hnd).2]
    simp
  | @cons₂ l r a hsub ih =>
    have hanr : a ∉ r := (List.nodup_cons.mp hnd).1
    rw [List.countP_cons]
    have htrue : (a :: l).contains a = true := by simp
    have hcong : r.countP (fun n => (a :: l).contains n)
        = r.countP (fun n => l.contains n) := by
      apply List.countP_congr
      intro x hx
      have hxa : x ≠ a := fun he => hanr (he ▸ hx)
      simp [List.contains_cons, hxa]
    rw [htrue, hcong, ih (List.nodup_cons.mp hnd).2, List.length_cons]
    simp

theorem sum_indicator_of_nodup {l : List String} {a : String}
    (hnd : l.Nodup) (ha : a ∈ l) :
    (l.map (fun v => if a == v then (1:ℚ) else 0)).sum = 1 := by
  induction l with
  | nil => cases ha
  | cons b bs ih =>
    rw [List.map_cons, List.sum_cons]
    rcases List.mem_cons.mp ha with rfl | hmem
    · have hz : (bs.map (fun v => if a == v then (1:ℚ) else 0)).sum = 0 := by
        apply List.sum_eq_zero
        intro x hx
        obtain ⟨v, hv, rfl⟩ := List.mem_map.mp hx
        rw [if_neg]
        intro he
        exact (List.nodup_cons.mp hnd).1 ((beq_iff_eq.mp he) ▸ hv)
      rw [if_pos (by simp), hz, add_zero]
    · have hab : a ≠ b := fun he => (List.nodup_cons.mp hnd).1 (he ▸ hmem)
      rw [if_neg (by simpa using hab), ih (List.nodup_cons.mp hnd).2 hmem, zero_add]

theorem encodeStep_cols_of_nodup {df : DF} (hnd : (postEncodeNames df).Nodup) :
    (encodeStep df).cols
      = df.cols.filter Col.isNum
        ++ ((df.cols.filter (fun c => !c.isNum)).map dummyCols).flatten := by
  obtain ⟨hnames, hdum, hdisj⟩ := List.nodup_append.mp hnd
  have hsubset : ((df.cols.filter (fun c => !c.isNum)).map Col.name) ⊆ df.colNames := by
    intro n hn
    obtain ⟨t, ht, rfl⟩ := List.mem_map.mp hn
    exact List.mem_map_of_mem Col.name (List.mem_filter.mp ht).1
  unfold encodeStep
  dsimp only
  rw [List.filter_append]
  congr 1
  · apply List.filter_congr
    intro c hc
    cases hnum : c.isNum with
    | true =>
      rw [Bool.not_eq_true']
      rw [Bool.eq_false_iff]
      intro htrue
      obtain ⟨t, ht, hteq⟩ := List.mem_map.mp (List.elem_iff.mp htrue)
      have htmem : t ∈ df.cols := (List.mem_filter.mp ht).1
      have hceq := eq_of_name_of_nodup hnames htmem hc hteq
      subst hceq
      have hfalse := (List.mem_filter.mp ht).2
      rw [hnum] at hfalse
      simp at hfalse
    | false =>
      rw [Bool.not_eq_false']
      apply List.elem_iff.mpr
      apply List.mem_map_of_mem Col.name
      exact List.mem_filter.mpr ⟨hc, by rw [hnum]; rfl⟩
  · apply List.filter_eq_self.mpr
    intro c hc
    have hcn : c.name ∈ ((df.cols.filter (fun c => !c.isNum)).map dummyCols).flatten.map
        Col.name := List.mem_map_of_mem Col.name hc
    rw [Bool.not_eq_true']
    rw [Bool.eq_false_iff]
    intro htrue
    exact hdisj (hsubset (List.elem_iff.mp htrue)) hcn

theorem dummyCols_map_name (nm : String) (cs : List (Option String)) :
    (dummyCols (Col.str nm cs)).map Col.name = dummyNames nm cs := by
  unfold dummyCols dummyNames
  rw [List.map_map]
  rfl

/-- C9, amended: if the encoding step meets no name collision (the
original column names together with every dummy-column name are
pairwise distinct, as on the project data), then for a text column
with no missing cell the encoding adds one indicator column per
distinct observed value (so exactly `nuniq` of them), each of its
indicator columns appears in the output, the indicators of every row
sum to 1, and the original text column is gone.  Without the
no-collision hypothesis the claim fails: the drop by text-column
labels also removes any dummy column that happens to bear such a
label. -/
theorem claim_C9_amended (df : DF) (nm : String) (cs : List (Option String))
    (hnd : (postEncodeNames df).Nodup)
    (hmem : Col.str nm cs ∈ df.cols)
    (hcomp : Col.missingCount (Col.str nm cs) = 0) :
    ((encodeStep df).colNames.countP
        (fun n => (dummyNames nm cs).contains n) = Col.nuniq (Col.str nm cs)) ∧
    (∀ c ∈ dummyCols (Col.str nm cs), c ∈ (encodeStep df).cols) ∧
    (∀ i, (hi : i < cs.length) →
      ((dummyCols (Col.str nm cs)).map
        (fun c => ((Col.numCells c).getD i none).getD 0)).sum = (1:ℚ)) ∧
    nm ∉ (encodeStep df).colNames := by
  have hcols := encodeStep_cols_of_nodup hnd
  obtain ⟨hnames, hdum, hdisj⟩ := List.nodup_append.mp hnd
  have htext : Col.str nm cs ∈ df.cols.filter (fun c => !c.isNum) :=
    List.mem_filter.mpr ⟨hmem, rfl⟩
  have hencNames : (encodeStep df).colNames
      = (df.cols.filter Col.isNum).map Col.name
        ++ ((df.cols.filter (fun c => !c.isNum)).map dummyCols).flatten.map Col.name := by
    unfold DF.colNames
    rw [hcols, List.map_append]
  have hsubNames : ((encodeStep df).colNames).Sublist (postEncodeNames df) := by
    rw [hencNames]
    unfold postEncodeNames DF.colNames
    exact List.Sublist.append ((List.filter_sublist df.cols).map Col.name)
      (List.Sublist.refl _)
  have hencNodup : ((encodeStep df).colNames).Nodup := hnd.sublist hsubNames
  have hdumSub : (dummyNames nm cs).Sublist (encodeStep df).colNames := by
    rw [hencNames]
    apply List.Sublist.trans ?_ (List.sublist_append_right _ _)
    rw [List.map_flatten]
    have hmemMapped : (dummyCols (Col.str nm cs)).map Col.name
        ∈ ((df.cols.filter (fun c => !c.isNum)).map dummyCols).map (List.map Col.name) :=
      List.mem_map_of_mem (List.map Col.name) (List.mem_map_of_mem dummyCols htext)
    rw [dummyCols_map_name] at hmemMapped
    exact List.sublist_flatten_of_mem hmemMapped
  refine ⟨?_, ?_, ?_, ?_⟩
  · rw [countP_contains_of_sublist hdumSub hencNodup]
    unfold dummyNames Col.nuniq
    rw [List.length_map]
  · intro c hc
    rw [hcols]
    apply List.mem_append_right
    exact List.mem_flatten.mpr ⟨dummyCols (Col.str nm cs),
      List.mem_map_of_mem dummyCols htext, hc⟩
  · intro i hi
    have hgi : cs[i] ∈ cs := List.getElem_mem hi
    have hsome : cs[i].isSome = true := by
      rcases hx : cs[i] with _ | x
      · exfalso
        have : cs.countP Option.isNone ≠ 0 := by
          have : 0 < cs.countP Option.isNone :=
            List.countP_pos_iff.mpr ⟨cs[i], hgi, by rw [hx]; rfl⟩
          omega
        exact this hcomp
      · rfl
    obtain ⟨x, hx⟩ := Option.isSome_iff_exists.mp hsome
    have hxdedup : x ∈ (cs.filterMap id).dedup :=
      List.mem_dedup.mpr (List.mem_filterMap.mpr ⟨cs[i], hgi, hx⟩)
    unfold dummyCols
    rw [List.map_map]
    have hfun : ((fun c => ((Col.numCells c).getD i none).getD 0) ∘
        (fun v => Col.num (nm ++ "_" ++ v)
          (cs.map (fun cell => some (if cell == some v then (1:ℚ) else 0)))))
        = fun v => if cs[i] == some v then (1:ℚ) else 0 := by
      funext v
      show ((cs.map (fun cell => some (if cell == some v then (1:ℚ) else 0))).getD
          i none).getD 0 = _
      rw [List.getD_eq_getElem _ none (by simpa using hi), List.getElem_map]
      rfl
    rw [hfun]
    have hfun2 : (fun v => if cs[i] == some v then (1:ℚ) else 0)
        = fun v => if x == v then (1:ℚ) else 0 := by
      funext v
      rw [hx]
      rfl
    rw [hfun2]
    exact sum_indicator_of_nodup (List.nodup_dedup _) hxdedup
  · rw [hencNames]
    intro hin
    rcases List.mem_append.mp hin with hleft | hright
    · obtain ⟨t, ht, hteq⟩ := List.mem_map.mp hleft
      have htmem : t ∈ df.cols := (List.mem_filter.mp ht).1
      have : t = Col.str nm cs := eq_of_name_of_nodup hnames htmem hmem hteq
      subst this
      have := (List.mem_filter.mp ht).2
      simp [Col.isNum] at this
    · exact hdisj (List.mem_map_of_mem Col.name hmem) hright

/-- **C9 (counterexample).**  On `tblCollide` the text column `A` has
two distinct observed values and no missing cell, yet the encoding
step leaves only one column bearing a dummy name of `A`: the dummy
column `A_b` collides with the text column literally named `A_b` and
is dropped together with the text columns, so the claimed "exactly k
indicator columns" fails. -/
theorem claim_C9_counterexample :
    Col.nuniq (Col.str "A" [some "b", some "x", some "b"]) = 2 ∧
    Col.missingCount (Col.str "A" [some "b", some "x", some "b"]) = 0 ∧
    Col.str "A" [some "b", some "x", some "b"] ∈ tblCollide.cols ∧
    (encodeStep tblCollide).colNames.countP
      (fun n => (dummyNames "A" [some "b", some "x", some "b"]).contains n) = 1 := by
  decide

/-- **C9 (witness).**  The amended theorem at a concrete input: on
`tblEncode` (numeric `N`, text `T` with two distinct values, no
collision) the encoding adds exactly `nuniq` indicator columns for `T`
and removes `T` itself. -/
theorem claim_C9_witness :
    (postEncodeNames tblEncode).Nodup ∧
    Col.str "T" [some "a", some "b", some "a"] ∈ tblEncode.cols ∧
    Col.missingCount (Col.str "T" [some "a", some "b", some "a"]) = 0 ∧
    ((encodeStep tblEncode).colNames.countP
        (fun n => (dummyNames "T" [some "a", some "b", some "a"]).contains n)
      = Col.nuniq (Col.str "T" [some "a", some "b", some "a"])) ∧
    "T" ∉ (encodeStep tblEncode).colNames := by
  have h1 : (postEncodeNames tblEncode).Nodup := by decide
  have h2 : Col.str "T" [some "a", some "b", some "a"] ∈ tblEncode.cols := by decide
  have h3 : Col.missingCount (Col.str "T" [some "a", some "b", some "a"]) = 0 := by decide
  obtain ⟨hc, -, -, hn⟩ :=
    claim_C9_amended tblEncode "T" [some "a", some "b", some "a"] h1 h2 h3
  exact ⟨h1, h2, h3, hc, hn⟩
